import Mathlib

/-
  Verification development for the PDF_to_Excel bank-statement table-extraction
  engine.  The TypeScript source is embedded shallowly:

  * JS numbers are modelled as exact rationals (the code only adds, halves,
    compares and floors coordinate values, so exact arithmetic is faithful on
    every input considered here);
  * JS objects used as string-keyed records are association lists that keep
    insertion order, as JS objects do;
  * JS regular expressions are embedded via a small total regex engine based
    on Brzozowski derivatives (the source uses them only through `test`);
  * `Array.prototype.sort`, which is stable in JS, is modelled by a stable
    insertion sort.

  Namespaces:  `V2` and `V1` are the second and first pipeline variants of
  supabase/functions/process-pdf/index.ts, `P4`, `P5`, `P7` the variants in
  src/unnamed/part_004, part_005 and part_007.
-/

namespace BankParse

/-! ### Characters and strings -/

/-- JS whitespace class `\s` restricted to the ASCII whitespace actually
occurring in statement text. -/
def isSpaceChar (c : Char) : Bool :=
  c = ' ' || c = '\t' || c = '\n' || c = '\r' || c = '\x0b' || c = '\x0c'

def isDigitChar (c : Char) : Bool := '0' ≤ c && c ≤ '9'

def isAlphaChar (c : Char) : Bool :=
  ('a' ≤ c && c ≤ 'z') || ('A' ≤ c && c ≤ 'Z')

/-- JS word class `\w` = letters, digits and underscore. -/
def isWordChar (c : Char) : Bool := isAlphaChar c || isDigitChar c || c = '_'

def toLowerStr (s : String) : String := String.mk (s.data.map Char.toLower)

def trimChars (cs : List Char) : List Char :=
  ((cs.dropWhile isSpaceChar).reverse.dropWhile isSpaceChar).reverse

/-- `String.prototype.trim`. -/
def trimStr (s : String) : String := String.mk (trimChars s.data)

/-- `pat` occurs at the very start of `cs`. -/
def isPreOf : List Char → List Char → Bool
  | [], _ => true
  | _ :: _, [] => false
  | a :: as, b :: bs => a = b && isPreOf as bs

/-- `String.prototype.includes`: `pat` occurs somewhere in `hay`. -/
def hasSub (pat : List Char) : List Char → Bool
  | [] => isPreOf pat []
  | c :: rest => isPreOf pat (c :: rest) || hasSub pat rest

def containsSub (hay pat : String) : Bool := hasSub pat.data hay.data

/-- `list.join(sep)`. -/
def joinSep (sep : String) : List String → String
  | [] => ""
  | [a] => a
  | a :: rest => a ++ sep ++ joinSep sep rest

/-- Drop every `','` (the `replace(/,/g, '')` idiom). -/
def removeCommas (s : String) : String :=
  String.mk (s.data.filter (fun c => c ≠ ','))

/-! ### JS objects as ordered association lists -/

/-- A JS object with string keys and string values, in insertion order. -/
abbrev Trans := List (String × String)

/-- `obj[k] = v`: overwrite in place if `k` exists, else append. -/
def setKey : Trans → String → String → Trans
  | [], k, v => [(k, v)]
  | (k', v') :: rest, k, v =>
    if k' = k then (k, v) :: rest else (k', v') :: setKey rest k v

/-- `obj[k]`, with JS `undefined` collapsed to `""` (the code only ever
asks for truthiness or trims a looked-up value, so this is faithful). -/
def getKey : Trans → String → String
  | [], _ => ""
  | (k', v') :: rest, k => if k' = k then v' else getKey rest k

def keysOf (t : Trans) : List String := t.map Prod.fst

/-- `Object.values(obj)` in insertion order. -/
def valuesOf (t : Trans) : List String := t.map Prod.snd

/-! ### JS number helpers -/

/-- `Math.round`: round half towards positive infinity. -/
def jsRound (q : ℚ) : ℤ := Rat.floor (q + 1/2)

/-- Parse a decimal literal (optional minus sign, digits, optional dot and
fraction digits) exactly.  Only applied to strings already known to match the
amount grammar, where `parseFloat` comparisons performed by the source are
exact at the precision it uses. -/
def digitsToNat (cs : List Char) : Nat :=
  cs.foldl (fun n c => n * 10 + (c.toNat - 48)) 0

def parseDecimal (cs : List Char) : ℚ :=
  let (sign, rest) :=
    match cs with
    | '-' :: r => ((-1 : ℚ), r)
    | r => ((1 : ℚ), r)
  let intPart := rest.takeWhile isDigitChar
  let fracPart := (rest.dropWhile isDigitChar).drop 1
  let fracDigits := fracPart.takeWhile isDigitChar
  sign * ((digitsToNat intPart : ℚ) +
    (digitsToNat fracDigits : ℚ) / ((10 : ℚ) ^ fracDigits.length))

def parseDecimalStr (s : String) : ℚ := parseDecimal s.data

/-! ### A total regex engine (Brzozowski derivatives)

The source only uses `RegExp.prototype.test` without capture groups, whose
result is pure language membership / search, so derivatives model it exactly.
-/

inductive RE where
  | eps : RE
  | cls : (Char → Bool) → RE
  | cat : RE → RE → RE
  | alt : RE → RE → RE
  | star : RE → RE

/-- The empty language. -/
def reNone : RE := RE.cls (fun _ => false)

def reNullable : RE → Bool
  | .eps => true
  | .cls _ => false
  | .cat a b => reNullable a && reNullable b
  | .alt a b => reNullable a || reNullable b
  | .star _ => true

def reDeriv : RE → Char → RE
  | .eps, _ => reNone
  | .cls p, c => if p c then .eps else reNone
  | .cat a b, c =>
    if reNullable a then .alt (.cat (reDeriv a c) b) (reDeriv b c)
    else .cat (reDeriv a c) b
  | .alt a b, c => .alt (reDeriv a c) (reDeriv b c)
  | .star a, c => .cat (reDeriv a c) (.star a)

/-- Whole-string match: the regex `^r$`. -/
def reAccept (r : RE) (cs : List Char) : Bool :=
  reNullable (cs.foldl reDeriv r)

/-- Some (possibly empty) leading segment of the input matches: the
anchored-test `/^r/.test(s)`. -/
def reHitsStart (r : RE) : List Char → Bool
  | [] => reNullable r
  | c :: cs => reNullable r || reHitsStart (reDeriv r c) cs

/-- Unanchored `r.test(s)`: some segment anywhere in the input matches. -/
def reSearch (r : RE) : List Char → Bool
  | [] => reNullable r
  | c :: cs => reHitsStart r (c :: cs) || reSearch r cs

def reSeqList (l : List RE) : RE := l.foldr RE.cat RE.eps

def reLit (s : String) : RE :=
  reSeqList (s.data.map (fun c => RE.cls (fun d => d = c)))

def reOpt (r : RE) : RE := RE.alt RE.eps r

def rePlus (r : RE) : RE := RE.cat r (RE.star r)

def reRep (r : RE) : Nat → RE
  | 0 => RE.eps
  | n + 1 => RE.cat r (reRep r n)

/-- The counted repetition written between braces in regex syntax:
at least `m` and at most `n` copies. -/
def reBetween (r : RE) (m n : Nat) : RE :=
  RE.cat (reRep r m) (reRep (reOpt r) (n - m))

def reDigit : RE := RE.cls isDigitChar
def reWs : RE := RE.cls isSpaceChar
def reWord : RE := RE.cls isWordChar
def reAlpha : RE := RE.cls isAlphaChar
def reDashSlash : RE := RE.cls (fun c => c = '-' || c = '/')

/-! ### Stable sorting (JS `Array.prototype.sort` with a key comparator) -/

/-- Insert `a` into a sorted list, passing exactly the elements whose key is
strictly smaller: earlier-input elements keep their place among equals. -/
def insByKey {α : Type} (k : α → ℚ) (a : α) : List α → List α
  | [] => [a]
  | b :: bs => if k b < k a then b :: insByKey k a bs else a :: b :: bs

/-- Stable sort ascending by the rational key `k`; `sortByKey (fun v => -(k v))`
sorts descending. -/
def sortByKey {α : Type} (k : α → ℚ) : List α → List α
  | [] => []
  | a :: as => insByKey k a (sortByKey k as)

/-- Keep the first occurrence of each element (insertion order of a JS `Map`
or `Set`). -/
def firstDedupAux {α : Type} [DecidableEq α] (seen : List α) : List α → List α
  | [] => []
  | a :: rest =>
    if a ∈ seen then firstDedupAux seen rest
    else a :: firstDedupAux (a :: seen) rest

def firstDedup {α : Type} [DecidableEq α] (l : List α) : List α :=
  firstDedupAux [] l

/-- `/\d/.test(s)`. -/
def hasDigit (s : String) : Bool := s.data.any isDigitChar

/-! ## V2 — the current edge function
(`supabase/functions/process-pdf/index.ts`, second variant) -/

namespace V2

structure TextItem where
  text : String
  y : ℚ
  x : ℚ
  width : ℚ
deriving DecidableEq, Repr

structure ColumnRange where
  header : String
  minX : ℚ
  maxX : Option ℚ
  centerX : ℚ
deriving DecidableEq, Repr

structure PageData where
  pageNumber : Nat
  transactions : List Trans
deriving DecidableEq, Repr

structure ParseResult where
  transactions : List Trans
  headers : List String
  pages : List PageData
deriving DecidableEq, Repr

/-- `isValidDate` (index.ts v2 787-798).  The four patterns are start-anchored
prefix tests on the trimmed text (sep = dash or slash):
1-2 digits, sep, 1-2 digits, sep, 2-4 digits;
1-2 digits, spaces, 3 word chars, spaces, 4 digits;
4 digits, sep, 1-2 digits, sep, 1-2 digits;
1-2 digits, spaces, 1+ letters, spaces, 4 digits. -/
def isValidDate (text : String) : Bool :=
  if text = "" || trimStr text = "" then false
  else
    let cs := (trimStr text).data
    reHitsStart (reSeqList [reBetween reDigit 1 2, reDashSlash,
      reBetween reDigit 1 2, reDashSlash, reBetween reDigit 2 4]) cs ||
    reHitsStart (reSeqList [reBetween reDigit 1 2, rePlus reWs,
      reRep reWord 3, rePlus reWs, reRep reDigit 4]) cs ||
    reHitsStart (reSeqList [reRep reDigit 4, reDashSlash,
      reBetween reDigit 1 2, reDashSlash, reBetween reDigit 1 2]) cs ||
    reHitsStart (reSeqList [reBetween reDigit 1 2, rePlus reWs,
      rePlus reAlpha, rePlus reWs, reRep reDigit 4]) cs

def headerKeywords : List String :=
  ["date", "description", "particulars", "debit", "credit",
   "withdrawal", "deposit", "balance", "amount", "transaction",
   "reference", "memo", "cheque", "narration", "details", "value",
   "txn", "chq", "ref", "dr", "cr"]

/-- `isHeaderRow` (index.ts v2 800-818). -/
def isHeaderRow (row : List TextItem) : Bool :=
  if row.length < 2 then false
  else
    let texts := row.map (fun it => toLowerStr it.text)
    let matchCount :=
      (texts.filter (fun t => headerKeywords.any (fun kw => containsSub t kw))).length
    let hasNoTransactionDate := !(texts.any (fun t => isValidDate t))
    decide (2 ≤ matchCount) && hasNoTransactionDate

def footerKeywords : List String :=
  ["end of statement", "closing balance", "page", "continued",
   "thank you", "regards", "signature", "generated", "statement from",
   "terms and conditions", "statement period", "account summary",
   "opening balance", "total debit", "total credit", "account number",
   "ifsc", "branch", "customer", "address"]

/-- `isFooterRow` (index.ts v2 820-831). -/
def isFooterRow (row : List TextItem) : Bool :=
  let joinedText := toLowerStr (joinSep " " (row.map (fun it => it.text)))
  footerKeywords.any (fun kw => containsSub joinedText kw)

/-! `groupItemsIntoRows` (index.ts v2 538-572): adaptive tolerance from the
median of positive consecutive y-gaps, then bucketing by the rounded key
`round(y / tolerance) * tolerance` (a JS `Map` keeps key insertion order, and
the entries are then sorted by key descending, rows by x ascending). -/

def consecGaps : List ℚ → List ℚ
  | a :: b :: rest => (if |a - b| > 1/2 then [|a - b|] else []) ++ consecGaps (b :: rest)
  | _ => []

def toleranceOf (items : List TextItem) : ℚ :=
  let ys := (sortByKey (fun it => -it.y) items).map (fun it => it.y)
  let yGaps := sortByKey (fun q => q) (consecGaps ys)
  let medianGap := if yGaps.isEmpty then 5 else yGaps.getD (yGaps.length / 2) 0
  max 3 (min (medianGap * (7/10)) 8)

def rowKeyAt (tol : ℚ) (y : ℚ) : ℚ := (jsRound (y / tol) : ℚ) * tol

def groupItemsIntoRows (items : List TextItem) : List (List TextItem) :=
  if items.isEmpty then []
  else
    let tol := toleranceOf items
    let keyList := firstDedup (items.map (fun it => rowKeyAt tol it.y))
    (sortByKey (fun kk => -kk) keyList).map
      (fun kk => sortByKey (fun it => it.x)
        (items.filter (fun it => decide (rowKeyAt tol it.y = kk))))

/-! `calculateColumnRanges` (index.ts v2 574-634). -/

structure XGap where
  position : ℚ
  gap : ℚ
deriving DecidableEq, Repr

def consecXGaps : List ℚ → List XGap
  | a :: b :: rest =>
    (if b - a > 20 then [⟨(a + b) / 2, b - a⟩] else []) ++ consecXGaps (b :: rest)
  | _ => []

def buildRanges (xGaps : List XGap) : List TextItem → List ColumnRange
  | [] => []
  | [h] => [⟨h.text, h.x - 10, none, h.x⟩]
  | h :: h2 :: rest =>
    let midpoint := (h.x + h2.x) / 2
    let relevantGaps := xGaps.filter (fun g =>
      decide (h.x < g.position) && decide (g.position < h2.x) && decide (30 < g.gap))
    let maxX := match relevantGaps with
      | g :: _ => g.position
      | [] => midpoint
    ⟨h.text, h.x - 10, some maxX, h.x⟩ :: buildRanges xGaps (h2 :: rest)

def calculateColumnRanges (headerRow : List TextItem) (_headers : List String)
    (allRows : List (List TextItem)) (headerRowIndex : Nat) : List ColumnRange :=
  let sortedHeaders := sortByKey (fun it => it.x) headerRow
  let sampleRows :=
    (allRows.take (min (headerRowIndex + 20) allRows.length)).drop (headerRowIndex + 1)
  let allXPositions :=
    sortByKey (fun q => q) ((sampleRows.map (fun row => row.map (fun it => it.x))).flatten)
  buildRanges (consecXGaps allXPositions) sortedHeaders

/-! `mapRowToColumns` (index.ts v2 739-785): each fragment goes to the
in-range column whose center is closest (score `1000 - distance`, strict
improvement keeps the first best). -/

def inRange (r : ColumnRange) (x : ℚ) : Bool :=
  decide (r.minX ≤ x) && (match r.maxX with | none => true | some m => decide (x < m))

def bestRangeIdx (ranges : List ColumnRange) (x : ℚ) : Option Nat :=
  (ranges.foldl
    (fun (acc : ℚ × Option Nat × Nat) (r : ColumnRange) =>
      let (bestScore, bestMatch, i) := acc
      if inRange r x then
        let score := 1000 - |x - r.centerX|
        if bestScore < score then (score, some i, i + 1)
        else (bestScore, bestMatch, i + 1)
      else (bestScore, bestMatch, i + 1))
    (-1, none, 0)).2.1

def emptyRange : ColumnRange := ⟨"", 0, none, 0⟩

def mapRowToColumns (row : List TextItem) (columnRanges : List ColumnRange)
    (headers : List String) : Trans :=
  let init : Trans := headers.foldl (fun t h => setKey t h "") []
  let assigned := row.foldl
    (fun t it =>
      match bestRangeIdx columnRanges it.x with
      | some i =>
        let h := (columnRanges.getD i emptyRange).header
        if getKey t h ≠ "" then setKey t h (getKey t h ++ " " ++ it.text)
        else setKey t h it.text
      | none => t)
    init
  headers.foldl (fun t h => if getKey t h ≠ "" then setKey t h (trimStr (getKey t h)) else t)
    assigned

/-! `groupMultiLineTransactions` (index.ts v2 636-737). -/

def findDateHeader (headers : List String) : String :=
  match headers.find? (fun h =>
      containsSub (toLowerStr h) "date" || toLowerStr h = "dt" || toLowerStr h = "txn date") with
  | some h => h
  | none => headers.headD ""

/-- The amount test used for the candidate start row (keyword list includes
`amount`, truthy and non-blank value). -/
def startHasAmount (headers : List String) (t : Trans) : Bool :=
  headers.any (fun h =>
    let lower := toLowerStr h
    (containsSub lower "withdrawal" || containsSub lower "deposit" ||
     containsSub lower "debit" || containsSub lower "credit" ||
     containsSub lower "balance" || containsSub lower "amount") &&
    getKey t h ≠ "" && trimStr (getKey t h) ≠ "")

/-- The amount test used for the next-row boundary check (no `amount` keyword,
value must contain a digit). -/
def nextHasAmountB (headers : List String) (t : Trans) : Bool :=
  headers.any (fun h =>
    let lower := toLowerStr h
    (containsSub lower "withdrawal" || containsSub lower "deposit" ||
     containsSub lower "debit" || containsSub lower "credit" ||
     containsSub lower "balance") &&
    getKey t h ≠ "" && hasDigit (getKey t h))

/-- One continuation merge (index.ts v2 709-723): a non-blank continuation
value is appended (or copied into an empty cell) unless it is a valid date
sitting exactly in the date column. -/
def mergeContinuation (headers : List String) (dateHeader : String) (t nt : Trans) : Trans :=
  headers.foldl
    (fun acc h =>
      if getKey nt h ≠ "" && trimStr (getKey nt h) ≠ "" then
        let isContinuation := !(isValidDate (getKey nt h)) || decide (h ≠ dateHeader)
        if isContinuation then
          if getKey acc h ≠ "" && trimStr (getKey acc h) ≠ "" then
            setKey acc h (trimStr (getKey acc h) ++ " " ++ trimStr (getKey nt h))
          else setKey acc h (trimStr (getKey nt h))
        else acc
      else acc)
    t

/-- The inner continuation scan (index.ts v2 674-727); returns the merged
transaction and the unconsumed remainder of the row list. -/
def gmltScan (cr : List ColumnRange) (hs : List String) (dh : String) :
    Trans → List (List TextItem) → Nat → Trans × List (List TextItem)
  | t, rows, 0 => (t, rows)
  | t, [], _ + 1 => (t, [])
  | t, r :: rest, ctd + 1 =>
    if isFooterRow r || isHeaderRow r then (t, r :: rest)
    else
      let nt := mapRowToColumns r cr hs
      let nextHasDate := getKey nt dh ≠ "" && isValidDate (getKey nt dh)
      let nextHasAmount := nextHasAmountB hs nt
      if nextHasDate && nextHasAmount then (t, r :: rest)
      else if nextHasDate && hs.any (fun h =>
          decide (h ≠ dh) && getKey nt h ≠ "" && trimStr (getKey nt h) ≠ "") then
        (t, r :: rest)
      else gmltScan cr hs dh (mergeContinuation hs dh t nt) rest ctd

/-- The outer while-loop, with fuel at least the number of rows (each
iteration consumes at least one row, so the fuel is never the binding
constraint when initialized to `rows.length`). -/
def gmltLoop (cr : List ColumnRange) (hs : List String) (dh : String) :
    Nat → List (List TextItem) → List Trans
  | 0, _ => []
  | _ + 1, [] => []
  | fuel + 1, r :: rest =>
    if isFooterRow r || r.isEmpty then gmltLoop cr hs dh fuel rest
    else
      let t := mapRowToColumns r cr hs
      let hasDate := getKey t dh ≠ "" && isValidDate (getKey t dh)
      let hasAmount := startHasAmount hs t
      if !hasDate && !hasAmount then gmltLoop cr hs dh fuel rest
      else
        let scanned := gmltScan cr hs dh t rest 15
        scanned.1 :: gmltLoop cr hs dh fuel scanned.2

def groupMultiLineTransactions (rows : List (List TextItem))
    (cr : List ColumnRange) (hs : List String) : List Trans :=
  gmltLoop cr hs (findDateHeader hs) rows.length rows

/-! Transaction-level filters (index.ts v2 833-898). -/

/-- The seven lower-case invalid patterns of `hasValidTransactionData`. -/
def invalidPatternsV2 : List RE :=
  [reSeqList [reLit "statement", rePlus reWs,
     RE.alt (reLit "from") (RE.alt (reLit "period") (RE.alt (reLit "to") (reLit "date")))],
   reSeqList [reLit "account", rePlus reWs, RE.alt (reLit "summary") (reLit "number")],
   reSeqList [reLit "customer", rePlus reWs, RE.alt (reLit "id") (reLit "name")],
   reSeqList [reLit "branch", rePlus reWs, RE.alt (reLit "code") (reLit "name")],
   reSeqList [reLit "ifsc", rePlus reWs, reLit "code"],
   reSeqList [reLit "opening", rePlus reWs, reLit "balance"],
   reSeqList [reLit "closing", rePlus reWs, reLit "balance"]]

def hasValidTransactionData (t : Trans) (headers : List String) : Bool :=
  let nonEmptyCount := ((valuesOf t).filter (fun v => v ≠ "" && trimStr v ≠ "")).length
  if nonEmptyCount < 1 then false
  else
    let dateHeader? := headers.find? (fun h =>
      containsSub (toLowerStr h) "date" || toLowerStr h = "dt")
    let hasDate := match dateHeader? with
      | some dh => getKey t dh ≠ "" && isValidDate (getKey t dh)
      | none => false
    let hasAmount := startHasAmount headers t
    if !hasDate && !hasAmount then false
    else
      let text := toLowerStr (joinSep " " (valuesOf t))
      !(invalidPatternsV2.any (fun r => reSearch r text.data))

def isHeaderTransaction (t : Trans) : Bool :=
  let text := toLowerStr (joinSep " " (valuesOf t))
  let kws := ["date", "description", "particulars", "debit", "credit",
    "withdrawal", "deposit", "balance"]
  decide (3 ≤ (kws.filter (fun kw => containsSub text kw)).length)

def isFooterTransaction (t : Trans) : Bool :=
  let text := toLowerStr (joinSep " " (valuesOf t))
  let kws := ["end of statement", "closing balance", "total", "page",
    "thank you", "regards", "signature", "generated",
    "terms and conditions", "continued", "opening balance"]
  kws.any (fun kw => containsSub text kw)

/-! `parseAllPages` (index.ts v2 465-536). -/

structure HSt where
  headers : List String
  cols : List ColumnRange
deriving DecidableEq, Repr

/-- The header-state update a non-empty page performs (index.ts v2 478-492):
only when no headers are known yet does a detected header row populate them. -/
def updHeaderState (st : HSt) (rows : List (List TextItem)) (hIdx : Option Nat) : HSt :=
  match hIdx with
  | some i =>
    if st.headers.isEmpty then
      let headerRow := rows.getD i []
      let hs := headerRow.map (fun it => it.text)
      ⟨hs, calculateColumnRanges headerRow hs rows i⟩
    else st
  | none => st

/-- The per-page state transition of the document parse. -/
def stepV2 (st : HSt) (items : List TextItem) : HSt :=
  if items.isEmpty then st
  else
    let rows := groupItemsIntoRows items
    updHeaderState st rows ((rows.take 40).findIdx? isHeaderRow)

/-- The header/column state after the first `n` pages. -/
def hstAfter (data : List (List TextItem)) (n : Nat) : HSt :=
  (data.take n).foldl stepV2 ⟨[], []⟩

/-- Page-1 collection (index.ts v2 504-510): stop at the first footer-like
assembled transaction, keep the valid ones before it. -/
def collectPage0 (hs : List String) : List Trans → List Trans
  | [] => []
  | t :: ts =>
    if isFooterTransaction t then []
    else (if hasValidTransactionData t hs then [t] else []) ++ collectPage0 hs ts

/-- Later-page collection (index.ts v2 514-520): header/footer-like assembled
transactions are skipped, not truncating. -/
def collectLater (hs : List String) (l : List Trans) : List Trans :=
  l.filter (fun t =>
    !(isHeaderTransaction t) && !(isFooterTransaction t) && hasValidTransactionData t hs)

def pageTransactionsAt (st : HSt) (rows : List (List TextItem)) (hIdx : Option Nat)
    (pageIndex : Nat) : List Trans :=
  if pageIndex = 0 then
    match hIdx with
    | some i =>
      if st.cols.isEmpty then []
      else collectPage0 st.headers
        (groupMultiLineTransactions (rows.drop (i + 1)) st.cols st.headers)
    | none => []
  else if st.cols.isEmpty then []
  else collectLater st.headers (groupMultiLineTransactions rows st.cols st.headers)

def parseLoop (st : HSt) (accT : List Trans) (accP : List PageData) (pageIndex : Nat) :
    List (List TextItem) → ParseResult
  | [] => ⟨accT, st.headers, accP⟩
  | items :: rest =>
    if items.isEmpty then parseLoop st accT accP (pageIndex + 1) rest
    else
      let rows := groupItemsIntoRows items
      let hIdx := (rows.take 40).findIdx? isHeaderRow
      let st' := updHeaderState st rows hIdx
      let pageTs := pageTransactionsAt st' rows hIdx pageIndex
      parseLoop st' (accT ++ pageTs)
        (accP ++ if pageTs.isEmpty then [] else [⟨pageIndex + 1, pageTs⟩])
        (pageIndex + 1) rest

def parseAllPages (allPagesData : List (List TextItem)) : ParseResult :=
  parseLoop ⟨[], []⟩ [] [] 0 allPagesData

end V2

/-! ### Shared JSON model (`JSON.stringify` on flat string records) -/

/-- Escapes the characters `JSON.stringify` escapes in the statement texts
considered here (quote, backslash and ASCII control whitespace). -/
def jsonEscChar (c : Char) : List Char :=
  if c = '"' then ['\\', '"']
  else if c = '\\' then ['\\', '\\']
  else if c = '\n' then ['\\', 'n']
  else if c = '\t' then ['\\', 't']
  else if c = '\r' then ['\\', 'r']
  else [c]

def jsonQuote (s : String) : String :=
  "\"" ++ String.mk ((s.data.map jsonEscChar).flatten) ++ "\""

/-- `JSON.stringify` of a flat string-keyed, string-valued object, in key
insertion order. -/
def jsonOfTrans (t : Trans) : String :=
  "\x7b" ++ joinSep "," (t.map (fun kv => jsonQuote kv.1 ++ ":" ++ jsonQuote kv.2)) ++ "\x7d"

/-- Column type tags (`'date' | 'amount' | 'text'`). -/
inductive CType where
  | date : CType
  | amount : CType
  | text : CType
deriving DecidableEq, Repr

/-! ## V1 — the first pipeline variant of
`supabase/functions/process-pdf/index.ts` (lines 54-356) -/

namespace V1

structure TextItem where
  text : String
  y : ℚ
  x : ℚ
deriving DecidableEq, Repr

structure ColumnRange where
  header : String
  minX : ℚ
  maxX : Option ℚ
deriving DecidableEq, Repr

structure ParseResult where
  transactions : List Trans
  headers : List String
deriving DecidableEq, Repr

/-- `groupItemsIntoRows` (index.ts v1 167-186): fixed tolerance 3. -/
def groupItemsIntoRows (items : List TextItem) : List (List TextItem) :=
  let tol : ℚ := 3
  let keyList := firstDedup (items.map (fun it => V2.rowKeyAt tol it.y))
  (sortByKey (fun kk => -kk) keyList).map
    (fun kk => sortByKey (fun it => it.x)
      (items.filter (fun it => decide (V2.rowKeyAt tol it.y = kk))))

/-- The prefix date test of v1 `isHeaderRow`: 1-2 digits, dash or slash,
1-2 digits, dash or slash, 2-4 digits, from the start of the text. -/
def numericDateStart (cs : List Char) : Bool :=
  reHitsStart (reSeqList [reBetween reDigit 1 2, reDashSlash,
    reBetween reDigit 1 2, reDashSlash, reBetween reDigit 2 4]) cs

def headerKeywords : List String :=
  ["date", "description", "particulars", "debit", "credit",
   "withdrawal", "deposit", "balance", "amount", "transaction",
   "reference", "memo", "cheque", "narration", "details"]

/-- `isHeaderRow` (index.ts v1 246-265). -/
def isHeaderRow (row : List TextItem) : Bool :=
  if row.length < 2 then false
  else
    let texts := row.map (fun it => toLowerStr it.text)
    let matchCount :=
      (texts.filter (fun t => headerKeywords.any (fun kw => containsSub t kw))).length
    let hasNoDate := !(texts.any (fun t => numericDateStart t.data))
    decide (2 ≤ matchCount) && hasNoDate

def footerKeywords : List String :=
  ["end of statement", "closing balance", "total", "page",
   "thank you", "regards", "signature", "generated",
   "terms and conditions", "continued", "statement from",
   "statement period", "account summary", "opening balance"]

/-- `isFooterRow` (index.ts v1 267-277). -/
def isFooterRow (row : List TextItem) : Bool :=
  let joinedText := toLowerStr (joinSep " " (row.map (fun it => it.text)))
  footerKeywords.any (fun kw => containsSub joinedText kw)

/-- The unanchored date search of `isTransactionRow`:
digit date (as above) or `1-2 digits, spaces, 3 word chars, spaces, 4 digits`,
anywhere in the joined text. -/
def dateSearchRE : RE :=
  RE.alt
    (reSeqList [reBetween reDigit 1 2, reDashSlash,
      reBetween reDigit 1 2, reDashSlash, reBetween reDigit 2 4])
    (reSeqList [reBetween reDigit 1 2, rePlus reWs,
      reRep reWord 3, rePlus reWs, reRep reDigit 4])

/-- The amount core of `isTransactionRow`: digits, optional comma or dot,
digits, optionally a dot-or-comma with two decimals; followed in the source
pattern by whitespace or the end of the string. -/
def amountCoreRE : RE :=
  reSeqList [rePlus reDigit, reOpt (RE.cls (fun c => c = ',' || c = '.')),
    RE.star reDigit,
    reOpt (reSeqList [RE.cls (fun c => c = '.' || c = ','), reRep reDigit 2])]

/-- `suffix-anchored search`: some segment ending exactly at the end of the
input matches (the `$` alternative of the source pattern). -/
def reSearchEnd (r : RE) : List Char → Bool
  | [] => reNullable r
  | c :: cs => reAccept r (c :: cs) || reSearchEnd r cs

def nonTransactionPatterns : List RE :=
  [reSeqList [reLit "statement", rePlus reWs,
     RE.alt (reLit "from") (RE.alt (reLit "period") (reLit "to"))],
   reSeqList [reLit "opening", rePlus reWs, reLit "balance"],
   reSeqList [reLit "closing", rePlus reWs, reLit "balance"],
   reSeqList [reLit "account", rePlus reWs,
     RE.alt (reLit "summary") (RE.alt (reLit "number") (reLit "name"))],
   reSeqList [reLit "customer", rePlus reWs, RE.alt (reLit "id") (reLit "name")],
   reSeqList [reLit "branch", rePlus reWs, RE.alt (reLit "code") (reLit "name")],
   reSeqList [reLit "ifsc", rePlus reWs, reLit "code"]]

/-- `isTransactionRow` (index.ts v1 279-300). -/
def isTransactionRow (row : List TextItem) : Bool :=
  if row.length < 2 then false
  else
    let joinedText := joinSep " " (row.map (fun it => it.text))
    let hasDate := reSearch dateSearchRE joinedText.data
    let hasAmount := reSearch (RE.cat amountCoreRE reWs) joinedText.data ||
      reSearchEnd amountCoreRE joinedText.data
    let lower := (toLowerStr joinedText).data
    let isNonTransaction := nonTransactionPatterns.any (fun r => reSearch r lower)
    hasDate && hasAmount && !isNonTransaction

/-- `hasValidTransactionData` (index.ts v1 302-320). -/
def hasValidTransactionData (t : Trans) : Bool :=
  let nonEmptyCount := ((valuesOf t).filter (fun v => v ≠ "")).length
  if nonEmptyCount < 2 then false
  else
    let text := (toLowerStr (joinSep " " (valuesOf t))).data
    let invalid : List RE :=
      [reSeqList [reLit "statement", rePlus reWs,
         RE.alt (reLit "from") (RE.alt (reLit "period") (reLit "to"))],
       reSeqList [reLit "opening", rePlus reWs, reLit "balance"],
       reSeqList [reLit "account", rePlus reWs, RE.alt (reLit "summary") (reLit "number")],
       reSeqList [reLit "customer", rePlus reWs, RE.alt (reLit "id") (reLit "name")],
       reSeqList [reLit "branch", rePlus reWs, RE.alt (reLit "code") (reLit "name")],
       reSeqList [reLit "ifsc", rePlus reWs, reLit "code"]]
    !(invalid.any (fun r => reSearch r text))

/-- `calculateColumnRanges` (index.ts v1 188-206): first range from 0, then
from each header x to the next header x, the last open-ended. -/
def buildRangesV1 : Bool → List TextItem → List ColumnRange
  | _, [] => []
  | isFirst, h :: rest =>
    let minX := if isFirst then 0 else h.x
    let maxX := match rest with
      | h2 :: _ => some h2.x
      | [] => none
    ⟨h.text, minX, maxX⟩ :: buildRangesV1 false rest

def calculateColumnRanges (headerRow : List TextItem) : List ColumnRange :=
  buildRangesV1 true headerRow

def inRangeV1 (r : ColumnRange) (x : ℚ) : Bool :=
  decide (r.minX ≤ x) && (match r.maxX with | none => true | some m => decide (x < m))

/-- `mapRowToColumns` (index.ts v1 208-244): items fall into the first range
containing their x; the assignments Map iterates in first-assignment order,
and each column's texts are joined with no separator. -/
def mapRowToColumns (row : List TextItem) (columnRanges : List ColumnRange)
    (headers : List String) : Trans :=
  let init : Trans := headers.foldl (fun t h => setKey t h "") []
  let asg := row.filterMap
    (fun it => (columnRanges.findIdx? (fun r => inRangeV1 r it.x)).map (fun i => (i, it.text)))
  let idxOrder := firstDedup (asg.map Prod.fst)
  idxOrder.foldl
    (fun t i =>
      match headers.get? i with
      | some h =>
        if h = "" then t
        else setKey t h (joinSep "" ((asg.filter (fun p => p.1 = i)).map Prod.snd))
      | none => t)
    init

def headerMapPairs : List (String × String) :=
  [("date", "Date"), ("description", "Description"), ("particulars", "Particulars"),
   ("narration", "Narration"), ("details", "Details"), ("debit", "Withdrawal"),
   ("withdrawal", "Withdrawal"), ("credit", "Deposit"), ("deposit", "Deposit"),
   ("balance", "Balance"), ("amount", "Amount"), ("memo", "Memo"),
   ("reference", "Reference"), ("ref", "Reference"), ("cheque", "Cheque"),
   ("chq", "Cheque")]

/-- `normalizeHeaders` (index.ts v1 322-356). -/
def normalizeHeaders (hs : List String) : List String :=
  let mapped := hs.map (fun h =>
    match headerMapPairs.find? (fun p => p.1 = toLowerStr h) with
    | some p => p.2
    | none => h)
  let r := firstDedup mapped
  if r.isEmpty then ["Date", "Description", "Withdrawal", "Deposit", "Balance"] else r

structure HSt where
  headers : List String
  cols : List ColumnRange
deriving DecidableEq, Repr

def updHeaderState (st : HSt) (rows : List (List TextItem)) (hIdx : Option Nat) : HSt :=
  match hIdx with
  | some i =>
    if st.headers.isEmpty then
      let headerRow := rows.getD i []
      ⟨headerRow.map (fun it => it.text), calculateColumnRanges headerRow⟩
    else st
  | none => st

/-- Page-1 data collection (index.ts v1 129-140): break at a footer row,
skip non-transaction rows, keep valid mapped transactions. -/
def collectP0 (cr : List ColumnRange) (hs : List String) : List (List TextItem) → List Trans
  | [] => []
  | r :: rest =>
    if isFooterRow r then []
    else if !(isTransactionRow r) then collectP0 cr hs rest
    else
      let t := mapRowToColumns r cr hs
      (if hasValidTransactionData t then [t] else []) ++ collectP0 cr hs rest

/-- Later-page collection (index.ts v1 142-153): header and footer rows are
skipped (`continue`), never truncating. -/
def collectPN (cr : List ColumnRange) (hs : List String) (rows : List (List TextItem)) :
    List Trans :=
  (rows.filter (fun r => !(isHeaderRow r) && !(isFooterRow r) && isTransactionRow r)).filterMap
    (fun r =>
      let t := mapRowToColumns r cr hs
      if hasValidTransactionData t then some t else none)

def parseLoop (st : HSt) (accT : List Trans) (pageIndex : Nat) :
    List (List TextItem) → List Trans × List String
  | [] => (accT, st.headers)
  | items :: rest =>
    if items.isEmpty then parseLoop st accT (pageIndex + 1) rest
    else
      let rows := groupItemsIntoRows items
      let hIdx := (rows.take 30).findIdx? isHeaderRow
      let st' := updHeaderState st rows hIdx
      let pageTs :=
        if pageIndex = 0 then
          match hIdx with
          | some i => collectP0 st'.cols st'.headers (rows.drop (i + 1))
          | none => []
        else if st'.cols.isEmpty then []
        else collectPN st'.cols st'.headers rows
      parseLoop st' (accT ++ pageTs) (pageIndex + 1) rest

/-- `parseAllPages` (index.ts v1 98-165): note that the reported headers are
`normalizeHeaders` of the raw detected header texts, while the transactions
keep the raw texts as keys. -/
def parseAllPages (allPagesData : List (List TextItem)) : ParseResult :=
  let r := parseLoop ⟨[], []⟩ [] 0 allPagesData
  ⟨r.1,
    if r.2.isEmpty then ["Date", "Description", "Withdrawal", "Deposit", "Balance"]
    else normalizeHeaders r.2⟩

end V1

/-! ## P4 — `src/unnamed/part_004` (second variant): the pure midpoint
column construction `calculateColumnsFromHeader` (lines 467-486) -/

namespace P4

structure TextItem where
  text : String
  y : ℚ
  x : ℚ
  height : ℚ
  width : ℚ
deriving DecidableEq, Repr

structure Column where
  header : String
  startX : ℚ
  endX : Option ℚ
  originalHeader : String
deriving DecidableEq, Repr

/-- Builds the ranges for the sorted header items: each range starts where
the previous one ended (a midpoint of adjacent header x-positions), the first
starts at 0, the last is open-ended. -/
def buildCols : ℚ → TextItem → List TextItem → List Column
  | start, h, [] => [⟨h.text, start, none, h.text⟩]
  | start, h, h2 :: rest =>
    let e := (h.x + h2.x) / 2
    ⟨h.text, start, some e, h.text⟩ :: buildCols e h2 rest

/-- `calculateColumnsFromHeader` (part_004 467-486). -/
def calculateColumnsFromHeader (headerRow : List TextItem) : List Column :=
  match sortByKey (fun it => it.x) headerRow with
  | [] => []
  | h :: rest => buildCols 0 h rest

/-- Membership of an x-position in a column's half-open range. -/
def inCol (c : Column) (q : ℚ) : Bool :=
  decide (c.startX ≤ q) && (match c.endX with | none => true | some e => decide (q < e))

end P4

/-! ## P5 — `src/unnamed/part_005`: the single-pass state-machine parser -/

namespace P5

structure TextItem where
  text : String
  y : ℚ
  x : ℚ
deriving DecidableEq, Repr

structure Row where
  y : ℚ
  items : List TextItem
deriving DecidableEq, Repr

structure PageData where
  pageNumber : Nat
  transactions : List Trans
deriving DecidableEq, Repr

structure ParseResult where
  transactions : List Trans
  headers : List String
  pages : List PageData
  columnTypes : List (String × CType)
deriving DecidableEq, Repr

/-- `Math.round(y * 10) / 10`. -/
def roundTo1 (y : ℚ) : ℚ := (jsRound (y * 10) : ℚ) / 10

/-- `groupIntoRows` (part_005 101-125): fragments attach to the first rounded
y-position (taken in descending-y order) within 0.5, groups in key order
descending, rows sorted by x. -/
def groupIntoRows (items : List TextItem) : List Row :=
  let yPositions :=
    firstDedup ((sortByKey (fun it => -it.y) items).map (fun it => roundTo1 it.y))
  let keyed := items.filterMap (fun it =>
    (yPositions.find? (fun yy => decide (|yy - roundTo1 it.y| < 1/2))).map (fun yy => (yy, it)))
  let usedKeys := firstDedup (keyed.map Prod.fst)
  (sortByKey (fun kk => -kk) usedKeys).map (fun kk =>
    ⟨kk, sortByKey (fun it => it.x)
      ((keyed.filter (fun p => decide (p.1 = kk))).map Prod.snd)⟩)

def headerKeywordList : List String :=
  ["date", "dt", "posting date", "value date",
   "description", "narration", "particulars", "details", "remarks", "transaction details",
   "debit", "credit", "amount", "withdrawal", "deposit",
   "balance", "reference", "ref", "cheque", "chq", "memo",
   "dr", "cr"]

/-- `isHeaderKeyword` (part_005 127-138). -/
def isHeaderKeyword (text : String) : Bool :=
  let lower := trimStr (toLowerStr text)
  headerKeywordList.any (fun kw => lower = kw || containsSub lower kw)

/-- `isDateValue` (part_005 162-174): five whole-string patterns. -/
def isDateValue (text : String) : Bool :=
  if text = "" || trimStr text = "" then false
  else
    let cs := (trimStr text).data
    reAccept (reSeqList [reBetween reDigit 1 2, reDashSlash,
      reBetween reDigit 1 2, reDashSlash, reBetween reDigit 2 4]) cs ||
    reAccept (reSeqList [reBetween reDigit 1 2, rePlus reWs,
      reRep reAlpha 3, rePlus reWs, reRep reDigit 4]) cs ||
    reAccept (reSeqList [reRep reDigit 4, reDashSlash,
      reBetween reDigit 1 2, reDashSlash, reBetween reDigit 1 2]) cs ||
    reAccept (reSeqList [reBetween reDigit 1 2, rePlus reWs,
      rePlus reAlpha, rePlus reWs, reRep reDigit 4]) cs ||
    reAccept (reSeqList [reBetween reDigit 1 2, RE.cls (fun c => c = '-'),
      reRep reAlpha 3, RE.cls (fun c => c = '-'), reBetween reDigit 2 4]) cs

/-- `isAmountValue` (part_005 176-182): after comma removal, an optional
minus, digits, optionally a dot and digits; never a date. -/
def isAmountValue (text : String) : Bool :=
  if text = "" || trimStr text = "" then false
  else if isDateValue text then false
  else
    let cleaned := removeCommas (trimStr text)
    reAccept (reSeqList [reOpt (RE.cls (fun c => c = '-')), rePlus reDigit,
      reOpt (RE.cls (fun c => c = '.')), RE.star reDigit]) cleaned.data &&
    cleaned ≠ ""

/-- `findHeaders` (part_005 140-160). -/
def findHeaders (rows : List Row) : Option (Nat × List String) :=
  ((rows.take 30).findIdx? (fun row =>
    decide (2 ≤ row.items.length) &&
    decide (2 ≤ ((row.items.map (fun it => it.text)).filter isHeaderKeyword).length) &&
    !(row.items.any (fun it => isDateValue it.text)))).map
    (fun i => (i, (rows.getD i ⟨0, []⟩).items.map (fun it => it.text)))

/-- `assignDataToColumns` (part_005 184-222): each item goes to the header
item with the closest x (first minimum wins); texts joined with spaces. -/
def closestHeaderIdx (headerItems : List TextItem) (x : ℚ) : Option Nat :=
  (headerItems.foldl
    (fun (acc : Option (Nat × ℚ) × Nat) hItem =>
      let (best, i) := acc
      let d := |x - hItem.x|
      match best with
      | none => (some (i, d), i + 1)
      | some (_, bd) => if d < bd then (some (i, d), i + 1) else (best, i + 1))
    (none, 0)).1.map Prod.fst

def assignDataToColumns (row : Row) (headerRow : Row) (headers : List String) : Trans :=
  let init : Trans := headers.foldl (fun t h => setKey t h "") []
  if headerRow.items.isEmpty then init
  else
    row.items.foldl
      (fun t it =>
        match closestHeaderIdx headerRow.items it.x with
        | some i =>
          match headers.get? i with
          | some h =>
            if getKey t h ≠ "" then setKey t h (getKey t h ++ " " ++ it.text)
            else setKey t h it.text
          | none => t
        | none => t)
      init

/-- `detectColumnType` (part_005 224-239). -/
def detectColumnType (header : String) : CType :=
  let lower := trimStr (toLowerStr header)
  if containsSub lower "date" || lower = "dt" || lower = "posting date" ||
     lower = "value date" then CType.date
  else if containsSub lower "debit" || containsSub lower "credit" ||
      containsSub lower "withdrawal" || containsSub lower "deposit" ||
      containsSub lower "amount" || containsSub lower "balance" ||
      lower = "dr" || lower = "cr" then CType.amount
  else CType.text

/-- `isValidTransaction` (part_005 241-263). -/
def isValidTransaction (t : Trans) (headers : List String) : Bool :=
  let filledFields := ((valuesOf t).filter (fun v => v ≠ "" && trimStr v ≠ "")).length
  if filledFields < 2 then false
  else
    let dateHeader? := headers.find? (fun h =>
      let lower := trimStr (toLowerStr h)
      containsSub lower "date" || lower = "dt")
    let hasValidDate := match dateHeader? with
      | some dh => getKey t dh ≠ "" && isDateValue (getKey t dh)
      | none => false
    let amountHeaders := headers.filter (fun h =>
      let lower := trimStr (toLowerStr h)
      containsSub lower "debit" || containsSub lower "credit" ||
      containsSub lower "withdrawal" || containsSub lower "deposit" ||
      containsSub lower "amount" || containsSub lower "balance")
    let hasValidAmount := amountHeaders.any (fun h =>
      getKey t h ≠ "" && isAmountValue (getKey t h))
    hasValidDate || hasValidAmount

def footerKeywordList : List String :=
  ["end of statement", "closing balance", "opening balance",
   "total debit", "total credit", "page", "continued",
   "thank you", "regards", "signature", "generated",
   "terms and conditions", "account summary", "account number"]

/-- The footer test of the row loop (part_005 310-316). -/
def isFooter (row : Row) : Bool :=
  let joinedText := toLowerStr (joinSep " " (row.items.map (fun it => it.text)))
  footerKeywordList.any (fun kw => containsSub joinedText kw)

/-- The narration-column index (part_005 298-303). -/
def narrationIdx (headers : List String) : Option Nat :=
  headers.findIdx? (fun h =>
    let lower := trimStr (toLowerStr h)
    containsSub lower "narration" || containsSub lower "particulars" ||
    containsSub lower "description" || containsSub lower "details" ||
    containsSub lower "remarks" || containsSub lower "transaction")

/-- The document-level mutable state of the row loop: the candidate
transaction being assembled, the dedup set, the document list and the page
list. -/
structure St where
  cur : Option Trans
  seen : List String
  allT : List Trans
  pageT : List Trans
deriving DecidableEq, Repr

/-- Flush the current transaction (part_005 319-325 / 341-347 / 368-374):
push it to both lists when valid and unseen.  The current transaction is not
cleared, exactly as in the source, whose later duplicate flush is then blocked
by the dedup set. -/
def flush (hs : List String) (st : St) : St :=
  match st.cur with
  | some t =>
    if isValidTransaction t hs then
      let k := jsonOfTrans t
      if k ∈ st.seen then st
      else ⟨st.cur, k :: st.seen, st.allT ++ [t], st.pageT ++ [t]⟩
    else st
  | none => st

/-- Whether a mapped row starts a new transaction (part_005 332-338). -/
def rowStartsTransaction (hs : List String) (cts : List (String × CType)) (rowData : Trans) :
    Bool :=
  let typeOf := fun h => match cts.find? (fun p => p.1 = h) with
    | some p => some p.2
    | none => none
  (hs.any (fun h => decide (typeOf h = some CType.date) &&
      getKey rowData h ≠ "" && isDateValue (getKey rowData h))) ||
  (hs.any (fun h => decide (typeOf h = some CType.amount) &&
      getKey rowData h ≠ "" && isAmountValue (getKey rowData h)))

/-- One pass of the row loop body for a non-footer row (part_005 330-365). -/
def rowStep (hs : List String) (cts : List (String × CType)) (nIdx : Option Nat)
    (headerRow : Row) (st : St) (row : Row) : St :=
  let rowData := assignDataToColumns row headerRow hs
  if rowStartsTransaction hs cts rowData then
    let st' := flush hs st
    ⟨some rowData, st'.seen, st'.allT, st'.pageT⟩
  else
    match st.cur, nIdx with
    | some t, some ni =>
      let narrationHeader := hs.getD ni ""
      let nonEmptyTexts := joinSep " "
        ((row.items.map (fun it => it.text)).filter (fun tx =>
          tx ≠ "" && !(isDateValue tx) && !(isAmountValue tx)))
      if nonEmptyTexts ≠ "" then
        let t' :=
          if getKey t narrationHeader ≠ "" then
            setKey t narrationHeader (getKey t narrationHeader ++ " " ++ nonEmptyTexts)
          else setKey t narrationHeader nonEmptyTexts
        ⟨some t', st.seen, st.allT, st.pageT⟩
      else st
    | _, _ => st

/-- The row loop (part_005 305-366): returns the state at loop exit (break at
a footer row flushes and stops). -/
def rowLoop (hs : List String) (cts : List (String × CType)) (nIdx : Option Nat)
    (headerRow : Row) (st : St) : List Row → St
  | [] => st
  | r :: rest =>
    if r.items.isEmpty then rowLoop hs cts nIdx headerRow st rest
    else if isFooter r then flush hs st
    else rowLoop hs cts nIdx headerRow (rowStep hs cts nIdx headerRow st r) rest

/-- One page of the document parse: the row loop followed by the unconditional
post-loop flush (part_005 368-375). -/
def pageRun (hs : List String) (cts : List (String × CType)) (nIdx : Option Nat)
    (headerRow : Row) (st : St) (rows : List Row) : St :=
  flush hs (rowLoop hs cts nIdx headerRow st rows)

/-- The document-level state threaded across pages. -/
structure GSt where
  ghdrs : List String
  gcts : List (String × CType)
  seen : List String
  allT : List Trans
  pages : List PageData
deriving DecidableEq, Repr

/-- One page of `parseAllPages` (part_005 272-383). -/
def pageStep (st : GSt) (pageIndex : Nat) (items : List TextItem) : GSt :=
  if items.isEmpty then st
  else
    let rows := groupIntoRows items
    let withHdrs :=
      if st.ghdrs.isEmpty then
        match findHeaders rows with
        | some hi => some (hi.2, hi.2.map (fun h => (h, detectColumnType h)))
        | none => none
      else some (st.ghdrs, st.gcts)
    match withHdrs with
    | none => st
    | some (ghdrs, gcts) =>
      match findHeaders rows with
      | none => { st with ghdrs := ghdrs, gcts := gcts }
      | some hi =>
        let headerRowIndex := hi.1
        let headerRow := rows.getD headerRowIndex ⟨0, []⟩
        let res := pageRun ghdrs gcts (narrationIdx ghdrs) headerRow
          ⟨none, st.seen, st.allT, []⟩ (rows.drop (headerRowIndex + 1))
        { ghdrs := ghdrs, gcts := gcts, seen := res.seen, allT := res.allT,
          pages := st.pages ++
            if res.pageT.isEmpty then [] else [⟨pageIndex + 1, res.pageT⟩] }

def pagesLoop (st : GSt) (pageIndex : Nat) : List (List TextItem) → GSt
  | [] => st
  | items :: rest => pagesLoop (pageStep st pageIndex items) (pageIndex + 1) rest

/-- `parseAllPages` (part_005 265-391). -/
def parseAllPages (allPagesData : List (List TextItem)) : ParseResult :=
  let st := pagesLoop ⟨[], [], [], [], []⟩ 0 allPagesData
  ⟨st.allT, st.ghdrs, st.pages, st.gcts⟩

end P5

/-! ## P7 — `src/unnamed/part_007` (second variant): typed columns, bounded
multi-line merge and cross-page deduplication -/

namespace P7

structure TextItem where
  text : String
  y : ℚ
  x : ℚ
  height : ℚ
  width : ℚ
deriving DecidableEq, Repr

structure Column where
  header : String
  startX : ℚ
  endX : Option ℚ
  index : Nat
  type : CType
deriving DecidableEq, Repr

structure PageData where
  pageNumber : Nat
  transactions : List Trans
deriving DecidableEq, Repr

structure ParseResult where
  transactions : List Trans
  pages : List PageData
  headers : List String
  columnTypes : List (String × CType)
deriving DecidableEq, Repr

/-- `isDateValue` (part_007 1075-1089): seven whole-string patterns. -/
def isDateValue (text : String) : Bool :=
  if text = "" || trimStr text = "" then false
  else
    let cs := (trimStr text).data
    reAccept (reSeqList [reBetween reDigit 1 2, reDashSlash,
      reBetween reDigit 1 2, reDashSlash, reBetween reDigit 2 4]) cs ||
    reAccept (reSeqList [reBetween reDigit 1 2, rePlus reWs,
      reRep reWord 3, rePlus reWs, reRep reDigit 4]) cs ||
    reAccept (reSeqList [reRep reDigit 4, reDashSlash,
      reBetween reDigit 1 2, reDashSlash, reBetween reDigit 1 2]) cs ||
    reAccept (reSeqList [reBetween reDigit 1 2, rePlus reWs,
      rePlus reAlpha, rePlus reWs, reRep reDigit 4]) cs ||
    reAccept (reSeqList [reBetween reDigit 1 2, RE.cls (fun c => c = '-'),
      reRep reAlpha 3, RE.cls (fun c => c = '-'), reBetween reDigit 2 4]) cs ||
    reAccept (reSeqList [reBetween reDigit 1 2, RE.cls (fun c => c = '/'),
      reBetween reDigit 1 2, RE.cls (fun c => c = '/'), reRep reDigit 4]) cs ||
    reAccept (reSeqList [reBetween reDigit 1 2, RE.cls (fun c => c = '-'),
      reBetween reDigit 1 2, RE.cls (fun c => c = '-'), reRep reDigit 4]) cs

/-- `isAmountValue` (part_007 1091-1105): after trimming and comma removal,
an optional minus, digits, optionally a dot and up to two decimals (or
exactly two); the parsed value must be at least 0.01 in magnitude (the
`parseFloat` comparison is exact for numerals with at most two decimals) and
the raw text must not be a date. -/
def isAmountValue (text : String) : Bool :=
  if text = "" || trimStr text = "" then false
  else
    let cleaned := removeCommas (trimStr text)
    let pat1 := reSeqList [reOpt (RE.cls (fun c => c = '-')), rePlus reDigit,
      reOpt (RE.cls (fun c => c = '.')), reBetween reDigit 0 2]
    let pat2 := reSeqList [rePlus reDigit, RE.cls (fun c => c = '.'), reRep reDigit 2]
    if !(reAccept pat1 cleaned.data || reAccept pat2 cleaned.data) then false
    else
      let num := parseDecimalStr cleaned
      decide ((1 : ℚ)/100 ≤ |num|) && !(isDateValue text)

/-- `groupItemsIntoRows` (part_007 670-697): walk the fragments in descending
y, starting a new row when the distance to the current row's anchor exceeds 3. -/
def walkRows (anchorY : ℚ) (cur : List TextItem) : List TextItem → List (List TextItem)
  | [] => [sortByKey (fun it => it.x) cur]
  | it :: rest =>
    if |anchorY - it.y| ≤ 3 then walkRows anchorY (cur ++ [it]) rest
    else sortByKey (fun jt => jt.x) cur :: walkRows it.y [it] rest

def groupItemsIntoRows (items : List TextItem) : List (List TextItem) :=
  match sortByKey (fun it => -it.y) items with
  | [] => []
  | first :: rest => walkRows first.y [first] rest

def headerKeywords : List String :=
  ["date", "description", "particulars", "narration", "details",
   "debit", "credit", "withdrawal", "deposit", "balance",
   "amount", "transaction", "value", "chq", "cheque",
   "ref", "reference", "no", "number", "dr", "cr", "txn"]

/-- `hasDataLikeContent` (part_007 811-816): a date value, or an amount value
above 10. -/
def hasDataLikeContent (row : List TextItem) : Bool :=
  row.any (fun it =>
    isDateValue it.text ||
    (isAmountValue it.text && decide (10 < parseDecimalStr (removeCommas (trimStr it.text)))))

/-- `calculateHeaderScore` (part_007 780-809): 2 points per keyword occurring
in any fragment (counted per keyword and fragment), -10 for data-like content,
+1 for 3 or more fragments, +1 for 5 or more, floored at 0. -/
def calculateHeaderScore (row : List TextItem) : ℤ :=
  if row.length < 2 then 0
  else
    let kwScore : ℤ := row.foldl
      (fun s it =>
        s + 2 * ((headerKeywords.filter (fun kw => containsSub (toLowerStr it.text) kw)).length : ℤ))
      0
    let s1 := if hasDataLikeContent row then kwScore - 10 else kwScore
    let s2 := if 3 ≤ row.length then s1 + 1 else s1
    let s3 := if 5 ≤ row.length then s2 + 1 else s2
    max 0 s3

/-- `cleanHeaderText` (part_007 755-760): newlines to spaces, whitespace runs
collapsed, trimmed. -/
def collapseWsAux (prevSpace : Bool) : List Char → List Char
  | [] => []
  | c :: rest =>
    if isSpaceChar c then
      if prevSpace then collapseWsAux true rest
      else ' ' :: collapseWsAux true rest
    else c :: collapseWsAux false rest

def collapseWs (cs : List Char) : List Char := collapseWsAux false cs

def cleanHeaderText (text : String) : String :=
  trimStr (String.mk (collapseWs text.data))

/-- `detectColumnType` (part_007 762-778). -/
def detectColumnType (headerText : String) : CType :=
  let lower := toLowerStr headerText
  if containsSub lower "date" || containsSub lower "dt" || lower = "txn date" ||
     lower = "value date" then CType.date
  else if containsSub lower "debit" || containsSub lower "credit" ||
      containsSub lower "withdrawal" || containsSub lower "deposit" ||
      containsSub lower "balance" || containsSub lower "amount" ||
      containsSub lower "dr" || containsSub lower "cr" ||
      lower = "withdrawals" || lower = "deposits" then CType.amount
  else CType.text

structure DetectResult where
  headers : List String
  columns : List Column
  columnTypes : List (String × CType)
deriving DecidableEq, Repr

/-- The width-aware midpoint boundaries of `detectHeaderAndColumns`
(part_007 729-750): the range of header `i` ends at
`(x_i + width_i + x_(i+1)) / 2`, where the next range starts. -/
def buildCols : ℚ → Nat → TextItem → List TextItem → List Column
  | start, i, h, [] =>
    [⟨cleanHeaderText h.text, start, none, i, detectColumnType (cleanHeaderText h.text)⟩]
  | start, i, h, h2 :: rest =>
    let e := (h.x + h.width + h2.x) / 2
    ⟨cleanHeaderText h.text, start, some e, i, detectColumnType (cleanHeaderText h.text)⟩ ::
      buildCols e (i + 1) h2 rest

/-- `clusterXPositions` (part_007 874-892). -/
def clusterAux (threshold : ℚ) (cur : List ℚ) (lastX : ℚ) : List ℚ → List (List ℚ)
  | [] => [cur]
  | x :: rest =>
    if x - lastX ≤ threshold then clusterAux threshold (cur ++ [x]) x rest
    else cur :: clusterAux threshold [x] x rest

def clusterXPositions (sortedXs : List ℚ) (threshold : ℚ) : List (List ℚ) :=
  match sortedXs with
  | [] => []
  | x :: rest => clusterAux threshold [x] x rest

def footerKeywords : List String :=
  ["end of statement", "closing balance", "page", "continued",
   "thank you", "regards", "total", "summary", "opening balance",
   "brought forward", "carried forward"]

/-- `isFooterRow` (part_007 1064-1073). -/
def isFooterRow (row : List TextItem) : Bool :=
  let rowText := toLowerStr (joinSep " " (row.map (fun it => it.text)))
  footerKeywords.any (fun kw => containsSub rowText kw)

/-- `guessColumnTypeFromData` (part_007 894-916). -/
def guessColumnTypeFromData (dataRows : List (List TextItem)) (startX : ℚ)
    (endX : Option ℚ) : CType :=
  let samples := ((dataRows.take 10).map (fun row =>
    (row.filter (fun it => decide (startX ≤ it.x) &&
      (match endX with | none => true | some e => decide (it.x < e)))).map
      (fun it => it.text))).flatten
  let dateCount := (samples.filter isDateValue).length
  let amountCount := (samples.filter isAmountValue).length
  if decide ((samples.length : ℚ) * (1/2) < (dateCount : ℚ)) then CType.date
  else if decide ((samples.length : ℚ) * (2/5) < (amountCount : ℚ)) then CType.amount
  else CType.text

def buildCenterCols (dataRows : List (List TextItem)) :
    ℚ → Nat → ℚ → List ℚ → List Column
  | start, i, _c, [] =>
    let name := "Column " ++ toString (i + 1)
    [⟨name, start, none, i, guessColumnTypeFromData dataRows start none⟩]
  | start, i, c, c2 :: rest =>
    let e := (c + c2) / 2
    let name := "Column " ++ toString (i + 1)
    ⟨name, start, some e, i, guessColumnTypeFromData dataRows start (some e)⟩ ::
      buildCenterCols dataRows e (i + 1) c2 rest

/-- `detectColumnsFromDataPatterns` (part_007 818-872). -/
def detectColumnsFromDataPatterns (rows : List (List TextItem)) : DetectResult :=
  let dataRows := (rows.filter (fun row => decide (2 ≤ row.length) && !(isFooterRow row))).take 15
  if dataRows.isEmpty then ⟨[], [], []⟩
  else
    let allXs := sortByKey (fun q => q) ((dataRows.map (fun row => row.map (fun it => it.x))).flatten)
    let clusters := clusterXPositions allXs 15
    let columnCenters := sortByKey (fun q => q)
      ((clusters.filter (fun cl => decide ((dataRows.length : ℚ) * (2/5) ≤ (cl.length : ℚ)))).map
        (fun cl => cl.foldl (fun a b => a + b) 0 / (cl.length : ℚ)))
    match columnCenters with
    | [] => ⟨[], [], []⟩
    | c :: cs =>
      let cols := buildCenterCols dataRows 0 0 c cs
      ⟨cols.map (fun col => col.header), cols, cols.map (fun col => (col.header, col.type))⟩

/-- The best-header search of `detectHeaderAndColumns` (part_007 704-716):
first strict maximum with score at least 3 among the first 20 rows. -/
def bestHeaderIdx (rows : List (List TextItem)) : Option Nat :=
  ((rows.take 20).foldl
    (fun (acc : ℤ × Option Nat × Nat) row =>
      let (best, idx, i) := acc
      let score := calculateHeaderScore row
      if best < score ∧ 3 ≤ score then (score, some i, i + 1)
      else (best, idx, i + 1))
    (0, none, 0)).2.1

/-- `detectHeaderAndColumns` (part_007 699-753). -/
def detectHeaderAndColumns (rows : List (List TextItem)) : DetectResult :=
  match bestHeaderIdx rows with
  | none => detectColumnsFromDataPatterns rows
  | some i =>
    let headerRow := rows.getD i []
    match sortByKey (fun it => it.x) headerRow with
    | [] => ⟨[], [], []⟩
    | h :: rest =>
      let cols := buildCols 0 0 h rest
      ⟨cols.map (fun col => col.header), cols, cols.map (fun col => (col.header, col.type))⟩

/-- `isHeaderLikeRow` (part_007 1050-1062). -/
def isHeaderLikeRow (row : List TextItem) : Bool :=
  if row.length < 2 then false
  else
    let kws := ["date", "description", "particulars", "debit", "credit",
      "withdrawal", "deposit", "balance", "amount", "transaction", "narration"]
    let rowText := toLowerStr (joinSep " " (row.map (fun it => it.text)))
    decide (2 ≤ (kws.filter (fun kw => containsSub rowText kw)).length)

/-- `mapRowToTransaction` (part_007 972-989). -/
def mapRowToTransaction (row : List TextItem) (columns : List Column)
    (headers : List String) : Trans :=
  let init : Trans := headers.foldl (fun t h => setKey t h "") []
  columns.foldl
    (fun t c =>
      let items := row.filter (fun it => decide (c.startX ≤ it.x) &&
        (match c.endX with | none => true | some e => decide (it.x < e)))
      if items.isEmpty then t
      else setKey t c.header (trimStr (joinSep " " (items.map (fun it => it.text)))))
    init

/-- `hasMinimumData` (part_007 991-994). -/
def hasMinimumData (t : Trans) : Bool :=
  decide (2 ≤ ((valuesOf t).filter (fun v => v ≠ "" && trimStr v ≠ "")).length)

/-- Some value of the record matches the date grammar. -/
def hasDateVal (t : Trans) : Bool := (valuesOf t).any isDateValue

/-- The number of values of the record matching the amount grammar. -/
def amountValCount (t : Trans) : Nat := ((valuesOf t).filter isAmountValue).length

/-- `isNewTransaction` (part_007 996-1006): some value is a date, or at least
two values are amounts. -/
def isNewTransaction (t : Trans) : Bool :=
  hasDateVal t || decide (2 ≤ amountValCount t)

/-- One header of the `mergeTransactionData` loop (part_007 1009-1020). -/
def mergeStep (source : Trans) (acc : Trans) (h : String) : Trans :=
  let targetVal := getKey acc h
  let sourceVal := getKey source h
  if sourceVal ≠ "" && !(isDateValue sourceVal) && !(isAmountValue sourceVal) then
    if targetVal ≠ "" && !(containsSub targetVal sourceVal) then
      setKey acc h (trimStr (targetVal ++ " " ++ sourceVal))
    else if targetVal = "" then setKey acc h sourceVal
    else acc
  else acc

/-- `mergeTransactionData` (part_007 1008-1021): source values that look like
dates or amounts are never merged; other non-empty values are appended when
not already contained, or copied into empty cells. -/
def mergeTransactionData (target source : Trans) (headers : List String) : Trans :=
  headers.foldl (mergeStep source) target

/-- `isValidTransaction` (part_007 1023-1048). -/
def isValidTransaction (t : Trans) : Bool :=
  let values := (valuesOf t).filter (fun v => v ≠ "" && trimStr v ≠ "")
  if values.length < 2 then false
  else
    let allText := (toLowerStr (joinSep " " values)).data
    let invalid : List RE :=
      [reSeqList [reLit "opening", rePlus reWs, reLit "balance"],
       reSeqList [reLit "closing", rePlus reWs, reLit "balance"],
       reSeqList [reLit "total", rePlus reWs, RE.alt (reLit "debit") (reLit "credit")],
       reSeqList [reLit "brought", rePlus reWs, reLit "forward"],
       reSeqList [reLit "carried", rePlus reWs, reLit "forward"],
       reSeqList [reLit "page", rePlus reWs, rePlus reDigit],
       reLit "continued"]
    if invalid.any (fun r => reSearch r allText) then false
    else
      values.any isDateValue || values.any isAmountValue

/-- The continuation scan of `extractTransactionsFromPage` (part_007 941-957):
returns the merged transaction and the unconsumed remainder of the rows. -/
def scanCont (cols : List Column) (hs : List String) :
    Trans → List (List TextItem) → Nat → Trans × List (List TextItem)
  | t, rows, 0 => (t, rows)
  | t, [], _ + 1 => (t, [])
  | t, r :: rest, ctd + 1 =>
    if isFooterRow r || isHeaderLikeRow r then (t, r :: rest)
    else
      let nt := mapRowToTransaction r cols hs
      if isNewTransaction nt then (t, r :: rest)
      else scanCont cols hs (mergeTransactionData t nt hs) rest ctd

/-- The outer loop of `extractTransactionsFromPage` (part_007 918-970), with
fuel at least the number of rows. -/
def extractLoop (cols : List Column) (hs : List String) :
    Nat → List (List TextItem) → List Trans
  | 0, _ => []
  | _ + 1, [] => []
  | fuel + 1, r :: rest =>
    if isFooterRow r || isHeaderLikeRow r || r.isEmpty then extractLoop cols hs fuel rest
    else
      let t := mapRowToTransaction r cols hs
      if hasMinimumData t then
        let sc := scanCont cols hs t rest 3
        (if isValidTransaction sc.1 then [sc.1] else []) ++ extractLoop cols hs fuel sc.2
      else extractLoop cols hs fuel rest

def extractTransactionsFromPage (rows : List (List TextItem)) (cols : List Column)
    (hs : List String) : List Trans :=
  if cols.isEmpty || hs.isEmpty then []
  else extractLoop cols hs rows.length rows

/-- `createTransactionKey` (part_007 1107-1109). -/
def createTransactionKey (t : Trans) : String := toLowerStr (jsonOfTrans t)

/-- The document-level structure state. -/
structure PState where
  headers : List String
  cols : List Column
  ctypes : List (String × CType)
deriving DecidableEq, Repr

/-- The structure update at a page (part_007 627-635). -/
def updStruct (st : PState) (pageIndex : Nat) (rows : List (List TextItem)) : PState :=
  if pageIndex = 0 || st.headers.isEmpty then
    let s := detectHeaderAndColumns rows
    if !s.headers.isEmpty then ⟨s.headers, s.columns, s.columnTypes⟩ else st
  else st

/-- The per-page structure transition, including the empty-page skip. -/
def stepP (st : PState) (pageIndex : Nat) (items : List TextItem) : PState :=
  if items.isEmpty then st else updStruct st pageIndex (groupItemsIntoRows items)

/-- The structure state used to extract page `i` (pages are numbered from 0):
`stepP` folded over the pages up to and including `i`. -/
def stateUsedForAux (st : PState) (idx : Nat) : List (List TextItem) → Nat → PState
  | [], _ => st
  | items :: _, 0 => stepP st idx items
  | items :: rest, i + 1 => stateUsedForAux (stepP st idx items) (idx + 1) rest i

def stateUsedFor (data : List (List TextItem)) (i : Nat) : PState :=
  stateUsedForAux ⟨[], [], []⟩ 0 data i

/-- Keep the transactions whose key is unseen, threading the seen set
(part_007 643-650). -/
def dedupFilter (seen : List String) : List Trans → List Trans × List String
  | [] => ([], seen)
  | t :: ts =>
    let k := createTransactionKey t
    if k ∈ seen then dedupFilter seen ts
    else
      let r := dedupFilter (k :: seen) ts
      (t :: r.1, r.2)

/-- The page loop of `processAllPages` (part_007 621-658). -/
def processLoop (st : PState) (seen : List String) (accP : List PageData) (pageIndex : Nat) :
    List (List TextItem) → PState × List PageData
  | [] => (st, accP)
  | items :: rest =>
    if items.isEmpty then processLoop st seen accP (pageIndex + 1) rest
    else
      let rows := groupItemsIntoRows items
      let st' := updStruct st pageIndex rows
      let pageTs := extractTransactionsFromPage rows st'.cols st'.headers
      let uniq := dedupFilter seen pageTs
      processLoop st' uniq.2
        (accP ++ if uniq.1.isEmpty then [] else [⟨pageIndex + 1, uniq.1⟩])
        (pageIndex + 1) rest

/-- `processAllPages` (part_007 609-668): the final transaction list is the
concatenation of the per-page unique lists. -/
def processAllPages (allPagesData : List (List TextItem)) : ParseResult :=
  let r := processLoop ⟨[], [], []⟩ [] [] 0 allPagesData
  ⟨(r.2.map (fun p => p.transactions)).flatten, r.2, r.1.headers, r.1.ctypes⟩

/-- The deduplication keys of all transactions carried by a page list. -/
def pagesKeys (ps : List PageData) : List String :=
  ((ps.map (fun p => p.transactions)).flatten).map createTransactionKey

end P7

/-! ## Concrete fixtures used by the claim theorems -/

/-- The spec's concrete merge/boundary scenario page (§8): header
`Date, Description, Withdrawal, Deposit, Balance` at x = 0, 80, 220, 300, 380,
then the two data rows. -/
def c1Page : List P7.TextItem :=
  [⟨"Date", 100, 0, 0, 0⟩, ⟨"Description", 100, 80, 0, 0⟩,
   ⟨"Withdrawal", 100, 220, 0, 0⟩, ⟨"Deposit", 100, 300, 0, 0⟩,
   ⟨"Balance", 100, 380, 0, 0⟩,
   ⟨"01/02/2024", 80, 0, 0, 0⟩, ⟨"Salary", 80, 80, 0, 0⟩,
   ⟨"5,000.00", 80, 300, 0, 0⟩, ⟨"15,000.00", 80, 380, 0, 0⟩,
   ⟨"02/02/2024", 60, 0, 0, 0⟩, ⟨"ATM", 60, 80, 0, 0⟩,
   ⟨"500.00", 60, 220, 0, 0⟩, ⟨"14,500.00", 60, 380, 0, 0⟩]

def c1T1 : Trans :=
  [("Date", "01/02/2024"), ("Description", "Salary"), ("Withdrawal", ""),
   ("Deposit", "5,000.00"), ("Balance", "15,000.00")]

def c1T2 : Trans :=
  [("Date", "02/02/2024"), ("Description", "ATM"), ("Withdrawal", "500.00"),
   ("Deposit", ""), ("Balance", "14,500.00")]

/-- A three-column layout used to exercise the continuation scan directly. -/
def c1Cols : List P7.Column :=
  [⟨"Date", 0, some 40, 0, CType.date⟩,
   ⟨"Description", 40, some 150, 1, CType.text⟩,
   ⟨"Withdrawal", 150, none, 2, CType.amount⟩]

def c1Hdrs : List String := ["Date", "Description", "Withdrawal"]

def c1RowA : List P7.TextItem :=
  [⟨"01/01/2024", 80, 0, 0, 0⟩, ⟨"Shop", 80, 80, 0, 0⟩, ⟨"100.00", 80, 220, 0, 0⟩]

/-- A row with its own date and amount (a new-transaction boundary row). -/
def c1RowB : List P7.TextItem :=
  [⟨"02/01/2024", 60, 0, 0, 0⟩, ⟨"opening", 60, 80, 0, 0⟩, ⟨"200.00", 60, 220, 0, 0⟩]

/-- A harmless-looking continuation row that poisons the boundary row's
narration into `opening balance`. -/
def c1RowC : List P7.TextItem := [⟨"balance", 40, 80, 0, 0⟩]

def c1TA : Trans :=
  [("Date", "01/01/2024"), ("Description", "Shop"), ("Withdrawal", "100.00")]

/-- A page whose data rows are interrupted by a `Closing balance` footer row
followed by a further transaction-shaped row. -/
def c4Page : List V2.TextItem :=
  [⟨"Date", 100, 0, 0⟩, ⟨"Description", 100, 100, 0⟩, ⟨"Amount", 100, 200, 0⟩,
   ⟨"01/01/2024", 80, 0, 0⟩, ⟨"Coffee", 80, 100, 0⟩, ⟨"100.00", 80, 200, 0⟩,
   ⟨"Closing balance", 60, 0, 0⟩,
   ⟨"02/01/2024", 40, 0, 0⟩, ⟨"Tea", 40, 100, 0⟩, ⟨"50.00", 40, 200, 0⟩]

def c4TA : Trans := [("Date", "01/01/2024"), ("Description", "Coffee"), ("Amount", "100.00")]

def c4TB : Trans := [("Date", "02/01/2024"), ("Description", "Tea"), ("Amount", "50.00")]

/-- Fixtures for the part_005 footer-truncation witness. -/
def c4HeaderRow : P5.Row := ⟨100, [⟨"Date", 100, 0⟩, ⟨"Balance", 100, 200⟩]⟩

def c4FooterRow : P5.Row := ⟨60, [⟨"Closing balance", 60, 0⟩]⟩

def c4DataRow : P5.Row := ⟨80, [⟨"01/01/2024", 80, 0⟩, ⟨"500.00", 80, 200⟩]⟩

/-- A header row for the v2 range construction counterexample. -/
def c3HdrRow : List V2.TextItem := [⟨"Date", 100, 0, 0⟩, ⟨"Amount", 100, 100, 0⟩]

/-- A header row for the part_004 construction witness. -/
def c3P4Row : List P4.TextItem :=
  [⟨"Date", 100, 0, 0, 0⟩, ⟨"Description", 100, 80, 0, 0⟩, ⟨"Balance", 100, 380, 0, 0⟩]

/-- One page repeated twice: the page-break reprint scenario. -/
def c5Page : List P7.TextItem :=
  [⟨"Date", 100, 0, 0, 0⟩, ⟨"Description", 100, 80, 0, 0⟩, ⟨"Balance", 100, 220, 0, 0⟩,
   ⟨"01/02/2024", 80, 0, 0, 0⟩, ⟨"Salary", 80, 80, 0, 0⟩, ⟨"5,000.00", 80, 220, 0, 0⟩]

def c5Data : List (List P7.TextItem) := [c5Page, c5Page]

def c5T : Trans := [("Date", "01/02/2024"), ("Description", "Salary"), ("Balance", "5,000.00")]

/-- A page whose only data row has junk in the date column but a valid
amount in the balance column. -/
def c6Page : List P5.TextItem :=
  [⟨"Date", 100, 0⟩, ⟨"Balance", 100, 200⟩, ⟨"xyz", 90, 0⟩, ⟨"500.00", 90, 200⟩]

def c6T : Trans := [("Date", "xyz"), ("Balance", "500.00")]

/-- Two same-position fragments, in the two possible input orders. -/
def c7A : V2.TextItem := ⟨"A", 50, 10, 0⟩

def c7B : V2.TextItem := ⟨"B", 50, 10, 0⟩

/-- Two copies of the `c4Page` layout: headers are established on page 1 and
reused on page 2. -/
def c8Data : List (List V2.TextItem) := [c4Page, c4Page]

/-- A header page whose headers get renamed by `normalizeHeaders` in the
reported result while the transactions keep the raw keys. -/
def c9Page : List V1.TextItem :=
  [⟨"Date", 100, 0⟩, ⟨"Debit", 100, 100⟩, ⟨"Credit", 100, 200⟩,
   ⟨"01/01/2024", 80, 0⟩, ⟨"100.00", 80, 100⟩]

def c9T : Trans := [("Date", "01/01/2024"), ("Debit", "100.00"), ("Credit", "")]

/-! ## Lemmas: association lists -/

theorem getKey_setKey_self (t : Trans) (k v : String) :
    getKey (setKey t k v) k = v := by
  induction t with
  | nil => simp [setKey, getKey]
  | cons p rest ih =>
    by_cases h : p.1 = k
    · simp [setKey, h, getKey]
    · simp [setKey, h, getKey, ih]

theorem getKey_setKey_ne (t : Trans) (k k' v : String) (h : k' ≠ k) :
    getKey (setKey t k' v) k = getKey t k := by
  induction t with
  | nil => simp [setKey, getKey, h]
  | cons p rest ih =>
    by_cases hp : p.1 = k'
    · simp [setKey, hp, getKey, h]
    · simp only [setKey, hp, if_false, getKey]
      by_cases hk : p.1 = k
      · simp [hk]
      · simp [hk, ih]

/-! ## Lemmas: stable sorting -/

theorem insByKey_perm {α : Type} (k : α → ℚ) (a : α) (l : List α) :
    (insByKey k a l).Perm (a :: l) := by
  induction l with
  | nil => simp [insByKey]
  | cons b bs ih =>
    by_cases h : k b < k a
    · simpa [insByKey, h] using (ih.cons b).trans (List.Perm.swap a b bs)
    · simp [insByKey, h]

theorem sortByKey_perm {α : Type} (k : α → ℚ) (l : List α) :
    (sortByKey k l).Perm l := by
  induction l with
  | nil => simp [sortByKey]
  | cons a as ih => exact (insByKey_perm k a (sortByKey k as)).trans (ih.cons a)

theorem mem_insByKey {α : Type} (k : α → ℚ) (a x : α) (l : List α) :
    x ∈ insByKey k a l ↔ x = a ∨ x ∈ l := by
  rw [(insByKey_perm k a l).mem_iff]; simp

theorem insByKey_sorted {α : Type} (k : α → ℚ) (a : α) (l : List α)
    (h : l.Pairwise (fun x y => k x ≤ k y)) :
    (insByKey k a l).Pairwise (fun x y => k x ≤ k y) := by
  induction l with
  | nil => simp [insByKey]
  | cons b bs ih =>
    rcases List.pairwise_cons.mp h with ⟨hb, hbs⟩
    by_cases hlt : k b < k a
    · rw [insByKey, if_pos hlt]
      refine List.pairwise_cons.mpr ⟨?_, ih hbs⟩
      intro x hx
      rcases (mem_insByKey k a x bs).mp hx with rfl | hx'
      · exact le_of_lt hlt
      · exact hb x hx'
    · rw [insByKey, if_neg hlt]
      refine List.pairwise_cons.mpr ⟨?_, h⟩
      intro x hx
      rcases List.mem_cons.mp hx with rfl | hx'
      · exact le_of_not_lt hlt
      · exact le_trans (le_of_not_lt hlt) (hb x hx')

theorem sortByKey_sorted {α : Type} (k : α → ℚ) (l : List α) :
    (sortByKey k l).Pairwise (fun x y => k x ≤ k y) := by
  induction l with
  | nil => simp [sortByKey]
  | cons a as ih => exact insByKey_sorted k a _ ih

theorem insByKey_map {α β : Type} (k : α → ℚ) (k' : β → ℚ) (f : α → β)
    (hk : ∀ x, k' (f x) = k x) (a : α) (l : List α) :
    (insByKey k a l).map f = insByKey k' (f a) (l.map f) := by
  induction l with
  | nil => simp [insByKey]
  | cons b bs ih =>
    by_cases h : k b < k a
    · simp [insByKey, h, hk, ih]
    · simp [insByKey, h, hk]

theorem sortByKey_map {α β : Type} (k : α → ℚ) (k' : β → ℚ) (f : α → β)
    (hk : ∀ x, k' (f x) = k x) (l : List α) :
    (sortByKey k l).map f = sortByKey k' (l.map f) := by
  induction l with
  | nil => simp [sortByKey]
  | cons a as ih => simp [sortByKey, insByKey_map k k' f hk, ih]

/-- Two sorted lists that are permutations of each other and have no repeated
keys are equal: the stable sort result is determined by the multiset. -/
theorem eq_of_perm_sorted_nodupKeys {α : Type} (k : α → ℚ) :
    ∀ {l₁ l₂ : List α}, l₁.Perm l₂ → l₁.Pairwise (fun x y => k x ≤ k y) →
      l₂.Pairwise (fun x y => k x ≤ k y) → (l₁.map k).Nodup → l₁ = l₂ := by
  intro l₁
  induction l₁ with
  | nil => intro l₂ hp _ _ _; exact (hp.nil_eq).symm ▸ rfl
  | cons a l₁' ih =>
    intro l₂ hp hs₁ hs₂ hn
    cases l₂ with
    | nil => exact absurd hp.symm.nil_eq (by simp)
    | cons b l₂' =>
      rcases List.pairwise_cons.mp hs₁ with ⟨ha, hs₁'⟩
      rcases List.pairwise_cons.mp hs₂ with ⟨hb, hs₂'⟩
      rcases List.nodup_cons.mp hn with ⟨hka, hn'⟩
      have hab : k a ≤ k b := by
        have hbmem : b ∈ a :: l₁' := hp.mem_iff.mpr (by simp)
        rcases List.mem_cons.mp hbmem with rfl | hbl
        · exact le_refl _
        · exact ha b hbl
      have hba : k b ≤ k a := by
        have hamem : a ∈ b :: l₂' := hp.mem_iff.mp (by simp)
        rcases List.mem_cons.mp hamem with rfl | hal
        · exact le_refl _
        · exact hb a hal
      have hk : k a = k b := le_antisymm hab hba
      have hb_eq : b = a := by
        have hbmem : b ∈ a :: l₁' := hp.mem_iff.mpr (by simp)
        rcases List.mem_cons.mp hbmem with rfl | hbl
        · rfl
        · exact absurd (hk ▸ (List.mem_map.mpr ⟨b, hbl, rfl⟩)) hka
      subst hb_eq
      have := ih (hp.cons_inv) hs₁' hs₂' hn'
      rw [this]

/-! ## Lemmas: first-occurrence deduplication -/

theorem mem_firstDedupAux {α : Type} [DecidableEq α] :
    ∀ (l : List α) (seen : List α) (x : α),
      x ∈ firstDedupAux seen l ↔ x ∈ l ∧ x ∉ seen := by
  intro l
  induction l with
  | nil => intro seen x; simp [firstDedupAux]
  | cons a rest ih =>
    intro seen x
    by_cases h : a ∈ seen
    · rw [firstDedupAux, if_pos h, ih]
      constructor
      · rintro ⟨hx, hs⟩; exact ⟨List.mem_cons_of_mem a hx, hs⟩
      · rintro ⟨hx, hs⟩
        rcases List.mem_cons.mp hx with rfl | hx'
        · exact absurd h hs
        · exact ⟨hx', hs⟩
    · rw [firstDedupAux, if_neg h]
      constructor
      · intro hx
        rcases List.mem_cons.mp hx with rfl | hx'
        · exact ⟨List.mem_cons_self _ _, h⟩
        · rcases (ih (a :: seen) x).mp hx' with ⟨h1, h2⟩
          exact ⟨List.mem_cons_of_mem a h1, fun hs => h2 (List.mem_cons_of_mem a hs)⟩
      · rintro ⟨hx, hs⟩
        rcases List.mem_cons.mp hx with rfl | hx'
        · exact List.mem_cons_self _ _
        · by_cases hxa : x = a
          · subst hxa; exact List.mem_cons_self _ _
          · exact List.mem_cons_of_mem a
              ((ih (a :: seen) x).mpr ⟨hx', by simp [hxa, hs]⟩)

theorem mem_firstDedup {α : Type} [DecidableEq α] (l : List α) (x : α) :
    x ∈ firstDedup l ↔ x ∈ l := by
  rw [firstDedup, mem_firstDedupAux]; simp

theorem nodup_firstDedupAux {α : Type} [DecidableEq α] :
    ∀ (l : List α) (seen : List α), (firstDedupAux seen l).Nodup := by
  intro l
  induction l with
  | nil => intro seen; simp [firstDedupAux]
  | cons a rest ih =>
    intro seen
    by_cases h : a ∈ seen
    · rw [firstDedupAux, if_pos h]; exact ih seen
    · rw [firstDedupAux, if_neg h]
      refine List.nodup_cons.mpr ⟨?_, ih (a :: seen)⟩
      intro hmem
      exact ((mem_firstDedupAux rest (a :: seen) a).mp hmem).2 (List.mem_cons_self _ _)

theorem nodup_firstDedup {α : Type} [DecidableEq α] (l : List α) :
    (firstDedup l).Nodup := nodup_firstDedupAux l []

/-! ## Claim C2 — merge policy for populated cells -/

theorem mergeStep_preserves (source : Trans) (h : String)
    (hsrc : P7.isDateValue (getKey source h) = true ∨
      P7.isAmountValue (getKey source h) = true ∨ getKey source h = "") :
    ∀ (acc : Trans) (h' : String), getKey (P7.mergeStep source acc h') h = getKey acc h := by
  intro acc h'
  by_cases hh : h' = h
  · subst hh
    rcases hsrc with hd | ha | he
    · simp [P7.mergeStep, hd]
    · simp [P7.mergeStep, ha]
    · simp [P7.mergeStep, he]
  · dsimp only [P7.mergeStep]
    split
    · split
      · exact getKey_setKey_ne _ _ _ _ hh
      · split
        · exact getKey_setKey_ne _ _ _ _ hh
        · rfl
    · rfl

/-- C2 (amended): `mergeTransactionData` never changes the value at a column
whose continuation (source) value is date-shaped, amount-shaped or empty —
in particular a populated date or amount cell is preserved when the
continuation repeats a date or an amount there.  (The original claim fails
because the guard is on the shape of the incoming value, not on the column
type: a non-date, non-amount continuation value is appended even to a
populated DATE-typed column — see the counterexample.) -/
theorem C2_merge_guard (target source : Trans) (headers : List String) (h : String)
    (hsrc : P7.isDateValue (getKey source h) = true ∨
      P7.isAmountValue (getKey source h) = true ∨ getKey source h = "") :
    getKey (P7.mergeTransactionData target source headers) h = getKey target h := by
  unfold P7.mergeTransactionData
  induction headers generalizing target with
  | nil => rfl
  | cons h' rest ih =>
    rw [List.foldl_cons]
    rw [ih (P7.mergeStep source target h')]
    exact mergeStep_preserves source h hsrc target h'

/-- C2 counterexample: the column `Date` is DATE-typed, its cell is populated
with a valid date, and the continuation brings the non-date text `abc` in that
column — the merge appends and the populated date cell changes. -/
theorem C2_cex :
    P7.detectColumnType "Date" = CType.date ∧
    P7.isDateValue "abc" = false ∧ P7.isAmountValue "abc" = false ∧
    getKey (P7.mergeTransactionData
      [("Date", "01/01/2024"), ("Description", "x")]
      [("Date", "abc"), ("Description", "")]
      ["Date", "Description"]) "Date" = "01/01/2024 abc" := by
  refine ⟨?_, ?_, ?_, ?_⟩ <;> with_unfolding_all decide

/-- C2 witness: a date-shaped continuation value never overwrites the
populated date cell. -/
theorem C2_witness :
    getKey (P7.mergeTransactionData
      [("Date", "01/01/2024"), ("Description", "x")]
      [("Date", "02/01/2024"), ("Description", "")]
      ["Date", "Description"]) "Date" =
      getKey [("Date", "01/01/2024"), ("Description", "x")] "Date" :=
  C2_merge_guard _ _ _ "Date" (Or.inl (by with_unfolding_all decide))

/-! ## Claim C1 — the new-transaction boundary rule -/

/-- C1 (amended): during the continuation scan, a following row whose mapped
record has a DATE-grammar value together with an AMOUNT-grammar value (or at
least two amount-grammar values) stops the scan at that row, which is never
merged into the current transaction; the unconsumed row is handed back to the
outer loop, which re-considers it as its own candidate start.  In the spec's
concrete two-row scenario the output contains the two separate transactions.
(The original claim further asserts such a row is always emitted as a
separate transaction; the counterexample shows it can still be dropped by the
validity filter after its own continuation merges.) -/
theorem C1_boundary :
    (∀ (cols : List P7.Column) (hs : List String) (t : Trans)
        (r : List P7.TextItem) (rest : List (List P7.TextItem)) (fuel : Nat),
      P7.isFooterRow r = false → P7.isHeaderLikeRow r = false →
      ((P7.hasDateVal (P7.mapRowToTransaction r cols hs) = true ∧
          (valuesOf (P7.mapRowToTransaction r cols hs)).any P7.isAmountValue = true) ∨
        2 ≤ P7.amountValCount (P7.mapRowToTransaction r cols hs)) →
      P7.scanCont cols hs t (r :: rest) (fuel + 1) = (t, r :: rest)) ∧
    (P7.processAllPages [c1Page]).transactions = [c1T1, c1T2] := by
  constructor
  · intro cols hs t r rest fuel hf hh hb
    have hnew : P7.isNewTransaction (P7.mapRowToTransaction r cols hs) = true := by
      simp only [P7.isNewTransaction, Bool.or_eq_true, decide_eq_true_eq]
      rcases hb with ⟨hd, _⟩ | hc
      · exact Or.inl hd
      · exact Or.inr hc
    simp [P7.scanCont, hf, hh, hnew]
  · with_unfolding_all decide

/-- C1 counterexample: the row `c1RowB` has its own date and amount (the
claim's antecedent holds), the scan stops there, but the page output contains
only the first transaction — `c1RowB` is never emitted, because its own
continuation row turns its narration into `opening balance` and the validity
filter rejects it. -/
theorem C1_cex :
    P7.hasDateVal (P7.mapRowToTransaction c1RowB c1Cols c1Hdrs) = true ∧
    (valuesOf (P7.mapRowToTransaction c1RowB c1Cols c1Hdrs)).any P7.isAmountValue = true ∧
    P7.extractTransactionsFromPage [c1RowA, c1RowB, c1RowC] c1Cols c1Hdrs = [c1TA] := by
  refine ⟨?_, ?_, ?_⟩ <;> with_unfolding_all decide

/-- C1 witness: the scan stops at `c1RowB` and returns the current
transaction unchanged. -/
theorem C1_witness :
    P7.scanCont c1Cols c1Hdrs c1TA [c1RowB] 3 = (c1TA, [c1RowB]) :=
  C1_boundary.1 c1Cols c1Hdrs c1TA c1RowB [] 2
    (by with_unfolding_all decide) (by with_unfolding_all decide)
    (Or.inl ⟨by with_unfolding_all decide, by with_unfolding_all decide⟩)

/-! ## Claim C3 — the column-range partition -/

theorem buildCols_ne_nil (s : ℚ) (h : P4.TextItem) (rest : List P4.TextItem) :
    P4.buildCols s h rest ≠ [] := by
  cases rest <;> simp [P4.buildCols]

theorem buildCols_head (s : ℚ) (h : P4.TextItem) (rest : List P4.TextItem) :
    ∃ c tl, P4.buildCols s h rest = c :: tl ∧ c.startX = s ∧ c.header = h.text := by
  cases rest <;> exact ⟨_, _, rfl, rfl, rfl⟩

theorem buildCols_startX_lb :
    ∀ (rest : List P4.TextItem) (h : P4.TextItem) (s : ℚ), s ≤ h.x →
      (h :: rest).Pairwise (fun a b => a.x ≤ b.x) →
      ∀ c ∈ P4.buildCols s h rest, s ≤ c.startX := by
  intro rest
  induction rest with
  | nil =>
    intro h s hs _ c hc
    simp only [P4.buildCols, List.mem_singleton] at hc
    simp [hc]
  | cons h2 rest' ih =>
    intro h s hs hpw c hc
    rcases List.pairwise_cons.mp hpw with ⟨hhd, hpw'⟩
    have hxx : h.x ≤ h2.x := hhd h2 (List.mem_cons_self _ _)
    have hsm : s ≤ (h.x + h2.x) / 2 := by linarith
    simp only [P4.buildCols, List.mem_cons] at hc
    rcases hc with rfl | hc'
    · exact le_refl _
    · have hm2 : (h.x + h2.x) / 2 ≤ h2.x := by linarith
      exact le_trans hsm (ih h2 _ hm2 hpw' c hc')

theorem buildCols_pairwise :
    ∀ (rest : List P4.TextItem) (h : P4.TextItem) (s : ℚ), s ≤ h.x →
      (h :: rest).Pairwise (fun a b => a.x ≤ b.x) →
      (P4.buildCols s h rest).Pairwise (fun a b => a.startX ≤ b.startX) := by
  intro rest
  induction rest with
  | nil => intro h s _ _; simp [P4.buildCols]
  | cons h2 rest' ih =>
    intro h s hs hpw
    rcases List.pairwise_cons.mp hpw with ⟨hhd, hpw'⟩
    have hxx : h.x ≤ h2.x := hhd h2 (List.mem_cons_self _ _)
    have hsm : s ≤ (h.x + h2.x) / 2 := by linarith
    have hm2 : (h.x + h2.x) / 2 ≤ h2.x := by linarith
    rw [P4.buildCols]
    refine List.pairwise_cons.mpr ⟨?_, ih h2 _ hm2 hpw'⟩
    intro c hc
    simpa using le_trans hsm (buildCols_startX_lb rest' h2 _ hm2 hpw' c hc)

theorem buildCols_chain :
    ∀ (rest : List P4.TextItem) (h : P4.TextItem) (s : ℚ),
      List.Chain' (fun a b => a.endX = some b.startX) (P4.buildCols s h rest) := by
  intro rest
  induction rest with
  | nil => intro h s; simp [P4.buildCols]
  | cons h2 rest' ih =>
    intro h s
    rw [P4.buildCols]
    rcases buildCols_head ((h.x + h2.x) / 2) h2 rest' with ⟨c, tl, heq, hcs, _⟩
    rw [heq]
    exact List.Chain'.cons (by simp [hcs]) (heq ▸ ih h2 _)

theorem buildCols_last :
    ∀ (rest : List P4.TextItem) (h : P4.TextItem) (s : ℚ),
      ∃ cl, (P4.buildCols s h rest).getLast? = some cl ∧ cl.endX = none := by
  intro rest
  induction rest with
  | nil => intro h s; exact ⟨_, rfl, rfl⟩
  | cons h2 rest' ih =>
    intro h s
    rcases ih h2 ((h.x + h2.x) / 2) with ⟨cl, hl, he⟩
    refine ⟨cl, ?_, he⟩
    rw [P4.buildCols]
    rcases buildCols_head ((h.x + h2.x) / 2) h2 rest' with ⟨c, tl, heq, _, _⟩
    rw [heq] at hl ⊢
    simpa [List.getLast?_cons_cons] using hl

theorem buildCols_cover :
    ∀ (rest : List P4.TextItem) (h : P4.TextItem) (s : ℚ), s ≤ h.x →
      (h :: rest).Pairwise (fun a b => a.x ≤ b.x) →
      ∀ q : ℚ, s ≤ q →
        ∃! c, c ∈ P4.buildCols s h rest ∧ P4.inCol c q = true := by
  intro rest
  induction rest with
  | nil =>
    intro h s _ _ q hq
    refine ⟨⟨h.text, s, none, h.text⟩, ⟨by simp [P4.buildCols], ?_⟩, ?_⟩
    · simp [P4.inCol, hq]
    · intro c hc
      simpa [P4.buildCols] using hc.1
  | cons h2 rest' ih =>
    intro h s hs hpw q hq
    rcases List.pairwise_cons.mp hpw with ⟨hhd, hpw'⟩
    have hxx : h.x ≤ h2.x := hhd h2 (List.mem_cons_self _ _)
    have hsm : s ≤ (h.x + h2.x) / 2 := by linarith
    have hm2 : (h.x + h2.x) / 2 ≤ h2.x := by linarith
    by_cases hqm : q < (h.x + h2.x) / 2
    · refine ⟨⟨h.text, s, some ((h.x + h2.x) / 2), h.text⟩,
        ⟨by simp [P4.buildCols], by simp [P4.inCol, hq, hqm]⟩, ?_⟩
      intro c hc
      rcases hc with ⟨hmem, hin⟩
      rw [P4.buildCols, List.mem_cons] at hmem
      rcases hmem with rfl | hmem'
      · rfl
      · exfalso
        have hlb := buildCols_startX_lb rest' h2 _ hm2 hpw' c hmem'
        simp only [P4.inCol, Bool.and_eq_true, decide_eq_true_eq] at hin
        exact absurd (le_trans hlb hin.1) (not_le.mpr hqm)
    · push_neg at hqm
      rcases ih h2 ((h.x + h2.x) / 2) hm2 hpw' q hqm with ⟨c, ⟨hcmem, hcin⟩, huniq⟩
      refine ⟨c, ⟨by rw [P4.buildCols]; exact List.mem_cons_of_mem _ hcmem, hcin⟩, ?_⟩
      intro c' hc'
      rcases hc' with ⟨hmem, hin⟩
      rw [P4.buildCols, List.mem_cons] at hmem
      rcases hmem with rfl | hmem'
      · exfalso
        simp only [P4.inCol, Bool.and_eq_true, decide_eq_true_eq] at hin
        exact absurd hin.2 (not_lt.mpr hqm)
      · exact huniq c' ⟨hmem', hin⟩

/-- C3 (amended): for the midpoint construction `calculateColumnsFromHeader`
of part_004 (and with it part_007), given a non-empty header row with
non-negative x-positions, the produced ranges are sorted ascending by
`startX`, contiguous (each range ends exactly where the next starts, so they
are non-overlapping), the first range starts at 0, the last is open-ended,
and every x-position at least 0 lies in exactly one range.  (The original
claim fails for `calculateColumnRanges` of index.ts, which starts every range
10 units left of its header and can leave gaps — see the counterexample.) -/
theorem C3_ranges (headerRow : List P4.TextItem) (hne : headerRow ≠ [])
    (hx : ∀ it ∈ headerRow, 0 ≤ it.x) :
    ((P4.calculateColumnsFromHeader headerRow).Pairwise (fun a b => a.startX ≤ b.startX)) ∧
    (∃ c0 tl, P4.calculateColumnsFromHeader headerRow = c0 :: tl ∧ c0.startX = 0) ∧
    (∃ cl, (P4.calculateColumnsFromHeader headerRow).getLast? = some cl ∧ cl.endX = none) ∧
    List.Chain' (fun a b => a.endX = some b.startX) (P4.calculateColumnsFromHeader headerRow) ∧
    (∀ q : ℚ, 0 ≤ q →
      ∃! c, c ∈ P4.calculateColumnsFromHeader headerRow ∧ P4.inCol c q = true) := by
  have hperm := sortByKey_perm (fun it : P4.TextItem => it.x) headerRow
  have hsorted := sortByKey_sorted (fun it : P4.TextItem => it.x) headerRow
  unfold P4.calculateColumnsFromHeader
  cases hseq : sortByKey (fun it : P4.TextItem => it.x) headerRow with
  | nil =>
    exact absurd (hseq ▸ hperm).symm.eq_nil hne
  | cons h rest =>
    rw [hseq] at hperm hsorted
    have h0 : 0 ≤ h.x := hx h (hperm.subset (List.mem_cons_self _ _))
    exact ⟨buildCols_pairwise rest h 0 h0 hsorted,
      (buildCols_head 0 h rest).imp (fun c hc => ⟨hc.choose, hc.choose_spec.1, hc.choose_spec.2.1⟩),
      buildCols_last rest h 0,
      buildCols_chain rest h 0,
      fun q hq => buildCols_cover rest h 0 h0 hsorted q hq⟩

/-- C3 counterexample: the index.ts `calculateColumnRanges` on a header at
x = 0 and x = 100 yields ranges starting at -10 and 90 with a boundary at 50:
the first range does not start at 0, and the position x = 70 lies in no
range, so the ranges are neither anchored at 0 nor covering. -/
theorem C3_cex :
    V2.calculateColumnRanges c3HdrRow ["Date", "Amount"] [c3HdrRow] 0 =
      [⟨"Date", -10, some 50, 0⟩, ⟨"Amount", 90, none, 100⟩] ∧
    ((V2.calculateColumnRanges c3HdrRow ["Date", "Amount"] [c3HdrRow] 0).all
      (fun r => !(V2.inRange r 70))) = true := by
  constructor <;> with_unfolding_all decide

/-- C3 witness: the part_004 construction on a concrete three-header row. -/
theorem C3_witness :
    ((P4.calculateColumnsFromHeader c3P4Row).Pairwise (fun a b => a.startX ≤ b.startX)) ∧
    (∃ c0 tl, P4.calculateColumnsFromHeader c3P4Row = c0 :: tl ∧ c0.startX = 0) ∧
    (∃ cl, (P4.calculateColumnsFromHeader c3P4Row).getLast? = some cl ∧ cl.endX = none) ∧
    List.Chain' (fun a b => a.endX = some b.startX) (P4.calculateColumnsFromHeader c3P4Row) ∧
    (∀ q : ℚ, 0 ≤ q →
      ∃! c, c ∈ P4.calculateColumnsFromHeader c3P4Row ∧ P4.inCol c q = true) :=
  C3_ranges c3P4Row (by with_unfolding_all decide) (by with_unfolding_all decide)

/-! ## Claim C8 — the header state is fixed once populated -/

theorem updHeaderState_stable (st : V2.HSt) (rows : List (List V2.TextItem))
    (hIdx : Option Nat) (h : st.headers ≠ []) :
    V2.updHeaderState st rows hIdx = st := by
  cases hIdx with
  | none => rfl
  | some i =>
    have : st.headers.isEmpty = false := by
      cases hh : st.headers with
      | nil => exact absurd hh h
      | cons a l => rfl
    simp [V2.updHeaderState, this]

theorem stepV2_stable (st : V2.HSt) (items : List V2.TextItem) (h : st.headers ≠ []) :
    V2.stepV2 st items = st := by
  unfold V2.stepV2
  split
  · rfl
  · exact updHeaderState_stable st _ _ h

theorem hstAfter_succ (data : List (List V2.TextItem)) (n : Nat) :
    V2.hstAfter data (n + 1) =
      (match data[n]? with
       | some items => V2.stepV2 (V2.hstAfter data n) items
       | none => V2.hstAfter data n) := by
  unfold V2.hstAfter
  rw [List.take_succ, List.foldl_append]
  cases data[n]? <;> simp

theorem hstAfter_stable (data : List (List V2.TextItem)) (i j : Nat) (hij : i ≤ j)
    (hne : (V2.hstAfter data i).headers ≠ []) :
    V2.hstAfter data j = V2.hstAfter data i := by
  induction j with
  | zero =>
    have : i = 0 := Nat.le_zero.mp hij
    rw [this]
  | succ j ih =>
    rcases Nat.lt_or_ge j.succ i with hlt | hge
    · exact absurd hij (Nat.not_le.mpr hlt)
    · rcases Nat.lt_or_ge i (j + 1) with hlt' | hge'
      · have hj := ih (Nat.lt_succ_iff.mp hlt')
        rw [hstAfter_succ]
        cases data[j]? with
        | none => exact hj
        | some items =>
          show V2.stepV2 (V2.hstAfter data j) items = _
          rw [hj]
          exact stepV2_stable _ _ hne
      · have : i = j + 1 := Nat.le_antisymm hij hge'
        rw [this]

theorem parseLoop_headers :
    ∀ (l : List (List V2.TextItem)) (st : V2.HSt) (accT : List Trans)
      (accP : List V2.PageData) (idx : Nat),
      (V2.parseLoop st accT accP idx l).headers = (l.foldl V2.stepV2 st).headers := by
  intro l
  induction l with
  | nil => intros; rfl
  | cons items rest ih =>
    intro st accT accP idx
    rw [V2.parseLoop]
    split
    · rw [ih]
      have : V2.stepV2 st items = st := by
        unfold V2.stepV2
        simp_all
      rw [List.foldl_cons, this]
    · rw [ih]
      have : V2.stepV2 st items =
          V2.updHeaderState st (V2.groupItemsIntoRows items)
            (((V2.groupItemsIntoRows items).take 40).findIdx? V2.isHeaderRow) := by
        unfold V2.stepV2
        simp_all
      rw [List.foldl_cons, this]

/-- C8 (confirmed): the header/column state of the v2 document parse is
monotone-once: as soon as the state after some page has non-empty headers, the
state after every later page is identical (later pages never modify the
headers or the column ranges), and the reported headers are exactly the final
state's headers. -/
theorem C8_header_fixed (data : List (List V2.TextItem)) (i j : Nat) (hij : i ≤ j)
    (hne : (V2.hstAfter data i).headers ≠ []) :
    V2.hstAfter data j = V2.hstAfter data i ∧
    (V2.parseAllPages data).headers = (V2.hstAfter data data.length).headers := by
  refine ⟨hstAfter_stable data i j hij hne, ?_⟩
  rw [V2.parseAllPages, parseLoop_headers]
  unfold V2.hstAfter
  rw [List.take_length]

/-- C8 witness: with the header found on page 1, the state after page 2
equals the state after page 1. -/
theorem C8_witness :
    V2.hstAfter c8Data 2 = V2.hstAfter c8Data 1 ∧
    (V2.parseAllPages c8Data).headers = (V2.hstAfter c8Data c8Data.length).headers :=
  C8_header_fixed c8Data 1 2 (by decide) (by with_unfolding_all decide)

/-! ## Claim C10 — the pages list of the result -/

theorem parseLoop_pages_inv :
    ∀ (l : List (List V2.TextItem)) (st : V2.HSt) (accT : List Trans)
      (accP : List V2.PageData) (idx : Nat),
      accT = (accP.map (fun p => p.transactions)).flatten →
      (∀ p ∈ accP, p.transactions ≠ []) →
      List.Chain' (fun a b => a < b) (accP.map (fun p => p.pageNumber)) →
      (∀ p ∈ accP, 1 ≤ p.pageNumber ∧ p.pageNumber ≤ idx) →
      (V2.parseLoop st accT accP idx l).transactions =
        (((V2.parseLoop st accT accP idx l).pages).map (fun p => p.transactions)).flatten ∧
      (∀ p ∈ (V2.parseLoop st accT accP idx l).pages, p.transactions ≠ []) ∧
      List.Chain' (fun a b => a < b)
        (((V2.parseLoop st accT accP idx l).pages).map (fun p => p.pageNumber)) ∧
      (∀ p ∈ (V2.parseLoop st accT accP idx l).pages,
        1 ≤ p.pageNumber ∧ p.pageNumber ≤ idx + l.length) := by
  intro l
  induction l with
  | nil =>
    intro st accT accP idx h1 h2 h3 h4
    exact ⟨h1, h2, h3, fun p hp => ⟨(h4 p hp).1, by simpa using (h4 p hp).2⟩⟩
  | cons items rest ih =>
    intro st accT accP idx h1 h2 h3 h4
    rw [V2.parseLoop]
    have hlen : (idx + 1) + rest.length = idx + (items :: rest).length := by
      simp [List.length_cons]; omega
    split
    · have := ih st accT accP (idx + 1) h1 h2 h3
        (fun p hp => ⟨(h4 p hp).1, Nat.le_succ_of_le (h4 p hp).2⟩)
      exact hlen ▸ this
    · set st' := V2.updHeaderState st (V2.groupItemsIntoRows items)
        (((V2.groupItemsIntoRows items).take 40).findIdx? V2.isHeaderRow) with hst'
    -- the page transactions computed for this page
      set pageTs := V2.pageTransactionsAt st' (V2.groupItemsIntoRows items)
        (((V2.groupItemsIntoRows items).take 40).findIdx? V2.isHeaderRow) idx with hpts
      by_cases hemp : pageTs.isEmpty
      · have hps : pageTs = [] := List.isEmpty_iff.mp hemp
        have := ih st' (accT ++ pageTs)
          (accP ++ if pageTs.isEmpty then [] else [⟨idx + 1, pageTs⟩]) (idx + 1)
          (by simp [hemp, hps, h1])
          (by simpa [hemp] using h2)
          (by simpa [hemp] using h3)
          (by
            simp only [hemp, if_true, List.append_nil]
            exact fun p hp => ⟨(h4 p hp).1, Nat.le_succ_of_le (h4 p hp).2⟩)
        exact hlen ▸ this
      · have hempf : pageTs.isEmpty = false := by
          cases hps : pageTs.isEmpty
          · rfl
          · exact absurd hps hemp
        have hps : pageTs ≠ [] := by
          intro hc
          rw [hc] at hempf
          exact absurd hempf (by simp)
        have := ih st' (accT ++ pageTs)
          (accP ++ if pageTs.isEmpty then [] else [⟨idx + 1, pageTs⟩]) (idx + 1)
          (by simp [hempf, h1])
          (by
            simp only [hempf, Bool.false_eq_true, if_false]
            intro p hp
            rcases List.mem_append.mp hp with hold | hnew
            · exact h2 p hold
            · simp only [List.mem_singleton] at hnew
              rw [hnew]
              exact hps)
          (by
            simp only [hempf, Bool.false_eq_true, if_false, List.map_append]
            rw [List.chain'_append]
            refine ⟨h3, by simp, ?_⟩
            intro x hx y hy
            simp only [List.map_cons, List.map_nil, List.head?_cons,
              Option.mem_def, Option.some.injEq] at hy
            subst hy
            have hx' : x ∈ accP.map (fun p => p.pageNumber) :=
              List.mem_of_mem_getLast? hx
            rcases List.mem_map.mp hx' with ⟨p, hp, rfl⟩
            have := (h4 p hp).2
            omega)
          (by
            simp only [hempf, Bool.false_eq_true, if_false]
            intro p hp
            rcases List.mem_append.mp hp with hold | hnew
            · exact ⟨(h4 p hold).1, Nat.le_succ_of_le (h4 p hold).2⟩
            · simp only [List.mem_singleton] at hnew
              rw [hnew]
              exact ⟨Nat.le_add_left 1 idx, Nat.le_refl _⟩)
        exact hlen ▸ this

/-- C10 (confirmed): in the v2 parse result, the pages list has an entry only
for pages that contributed at least one surviving transaction (every listed
page's list is non-empty), the listed page numbers are strictly increasing
(hence possibly non-contiguous) and lie between 1 and the number of input
pages, and concatenating the listed pages' transactions equals the top-level
transaction list. -/
theorem C10_pages (data : List (List V2.TextItem)) :
    (V2.parseAllPages data).transactions =
      (((V2.parseAllPages data).pages).map (fun p => p.transactions)).flatten ∧
    (∀ p ∈ (V2.parseAllPages data).pages, p.transactions ≠ []) ∧
    List.Chain' (fun a b => a < b)
      (((V2.parseAllPages data).pages).map (fun p => p.pageNumber)) ∧
    (∀ p ∈ (V2.parseAllPages data).pages,
      1 ≤ p.pageNumber ∧ p.pageNumber ≤ data.length) := by
  have h := parseLoop_pages_inv data ⟨[], []⟩ [] [] 0 rfl (by simp) (by simp) (by simp)
  simpa [V2.parseAllPages] using h

/-! ## Claim C4 — footer truncation -/

theorem isFooter_items_not_empty (f : P5.Row) (hf : P5.isFooter f = true) :
    f.items.isEmpty = false := by
  cases f with
  | mk y items =>
    cases items with
    | nil =>
      have : P5.isFooter ⟨y, []⟩ = false := rfl
      rw [this] at hf
      exact absurd hf (by simp)
    | cons a l => rfl

/-- The part_005 row loop ignores everything after a footer row: its result
does not depend on the rows that follow the footer. -/
theorem rowLoop_trunc (hs : List String) (cts : List (String × CType))
    (nIdx : Option Nat) (headerRow : P5.Row) :
    ∀ (pre : List P5.Row) (st : P5.St) (f : P5.Row) (post post' : List P5.Row),
      P5.isFooter f = true →
      P5.rowLoop hs cts nIdx headerRow st (pre ++ f :: post) =
        P5.rowLoop hs cts nIdx headerRow st (pre ++ f :: post') := by
  intro pre
  induction pre with
  | nil =>
    intro st f post post' hf
    simp only [List.nil_append]
    rw [P5.rowLoop, P5.rowLoop]
    simp [isFooter_items_not_empty f hf, hf]
  | cons r pre' ih =>
    intro st f post post' hf
    simp only [List.cons_append]
    rw [P5.rowLoop, P5.rowLoop]
    by_cases h1 : r.items.isEmpty
    · simp only [h1, if_true]
      exact ih st f post post' hf
    · simp only [h1, Bool.false_eq_true, if_false]
      by_cases h2 : P5.isFooter r
      · simp [h2]
      · simp only [h2, Bool.false_eq_true, if_false]
        exact ih _ f post post' hf

/-- C4 (amended): in the part_005 parser a footer row truncates the page —
the page outcome (current transaction flushed, document and page lists,
dedup set) is independent of every row after the footer row.  (The original
claim fails for the index.ts variant, where footer rows are skipped during
grouping and only footer-shaped assembled transactions stop the page-1 loop:
see the counterexample, where a transaction-shaped row after a
`Closing balance` row still contributes.) -/
theorem C4_truncation (hs : List String) (cts : List (String × CType))
    (nIdx : Option Nat) (headerRow : P5.Row) (st : P5.St)
    (pre post post' : List P5.Row) (f : P5.Row) (hf : P5.isFooter f = true) :
    P5.pageRun hs cts nIdx headerRow st (pre ++ f :: post) =
      P5.pageRun hs cts nIdx headerRow st (pre ++ f :: post') := by
  unfold P5.pageRun
  rw [rowLoop_trunc hs cts nIdx headerRow pre st f post post' hf]

/-- C4 counterexample: in the index.ts parse of `c4Page`, the third grouped
row is the footer row `Closing balance`, yet the transaction-shaped fourth
row still contributes `c4TB` to the output after it. -/
theorem C4_cex :
    (V2.groupItemsIntoRows c4Page).map (fun r => r.map (fun it => it.text)) =
      [["Date", "Description", "Amount"], ["01/01/2024", "Coffee", "100.00"],
       ["Closing balance"], ["02/01/2024", "Tea", "50.00"]] ∧
    V2.isFooterRow [⟨"Closing balance", 60, 0, 0⟩] = true ∧
    (V2.parseAllPages [c4Page]).transactions = [c4TA, c4TB] := by
  refine ⟨?_, ?_, ?_⟩ <;> with_unfolding_all decide

/-- C4 witness: with a footer row present, the part_005 page outcome is the
same whether or not a further data row follows it. -/
theorem C4_witness :
    P5.pageRun ["Date", "Balance"] [("Date", CType.date), ("Balance", CType.amount)] none
      c4HeaderRow ⟨none, [], [], []⟩ ([c4DataRow] ++ c4FooterRow :: [c4DataRow]) =
    P5.pageRun ["Date", "Balance"] [("Date", CType.date), ("Balance", CType.amount)] none
      c4HeaderRow ⟨none, [], [], []⟩ ([c4DataRow] ++ c4FooterRow :: []) :=
  C4_truncation ["Date", "Balance"] [("Date", CType.date), ("Balance", CType.amount)] none
    c4HeaderRow ⟨none, [], [], []⟩ [c4DataRow] [c4DataRow] [] c4FooterRow
    (by with_unfolding_all decide)

/-! ## Claim C6 — what the validity filter actually guarantees -/

theorem findIdxQ_spec {α : Type} (p : α → Bool) :
    ∀ (l : List α) (i : Nat), l.findIdx? p = some i →
      ∃ x, l[i]? = some x ∧ p x = true := by
  intro l
  induction l with
  | nil => intro i h; simp at h
  | cons a rest ih =>
    intro i h
    rw [List.findIdx?_cons] at h
    by_cases hp : p a
    · rw [if_pos hp] at h
      cases h
      exact ⟨a, by simp, hp⟩
    · rw [if_neg hp] at h
      rw [List.findIdx?_start_succ] at h
      cases hk : rest.findIdx? p with
      | none => rw [hk] at h; simp at h
      | some k =>
        rw [hk] at h
        simp only [Option.map_some', Option.some.injEq] at h
        rcases ih k hk with ⟨x, hx, hpx⟩
        refine ⟨x, ?_, hpx⟩
        rw [← h]
        simpa using hx

theorem findHeaders_some_ne_nil (rows : List P5.Row) (i : Nat) (hs : List String)
    (h : P5.findHeaders rows = some (i, hs)) : hs ≠ [] := by
  unfold P5.findHeaders at h
  cases hfi : ((rows.take 30).findIdx? (fun row =>
      decide (2 ≤ row.items.length) &&
      decide (2 ≤ ((row.items.map (fun it => it.text)).filter P5.isHeaderKeyword).length) &&
      !(row.items.any (fun it => P5.isDateValue it.text)))) with
  | none => rw [hfi] at h; simp at h
  | some j =>
    rw [hfi] at h
    simp only [Option.map_some', Option.some.injEq, Prod.mk.injEq] at h
    rcases h with ⟨hj, hhs⟩
    rcases findIdxQ_spec _ _ j hfi with ⟨row, hrow, hprow⟩
    have hjlt : (rows.take 30)[j]? = some row := hrow
    have hrowj : rows[j]? = some row := by
      rw [List.getElem?_take] at hjlt
      by_cases hlt : j < 30
      · simpa [hlt] using hjlt
      · simp [hlt] at hjlt
    have hget : rows.getD j ⟨0, []⟩ = row := by
      rw [List.getD_eq_getElem?_getD, hrowj]
      rfl
    subst hj
    rw [hget] at hhs
    simp only [Bool.and_eq_true, decide_eq_true_eq] at hprow
    have hlen : 2 ≤ row.items.length := hprow.1.1
    intro hnil
    rw [← hhs] at hnil
    have := List.length_eq_zero.mpr hnil
    rw [List.length_map] at this
    omega

theorem flush_allT (hs : List String) (st : P5.St) :
    ∀ t ∈ (P5.flush hs st).allT, t ∈ st.allT ∨ P5.isValidTransaction t hs = true := by
  intro t ht
  unfold P5.flush at ht
  cases hcur : st.cur with
  | none => rw [hcur] at ht; exact Or.inl ht
  | some t0 =>
    rw [hcur] at ht
    dsimp only at ht
    by_cases hv : P5.isValidTransaction t0 hs = true
    · rw [if_pos hv] at ht
      by_cases hk : jsonOfTrans t0 ∈ st.seen
      · rw [if_pos hk] at ht
        exact Or.inl ht
      · rw [if_neg hk] at ht
        dsimp only at ht
        rcases List.mem_append.mp ht with hin | hnew
        · exact Or.inl hin
        · simp only [List.mem_singleton] at hnew
          rw [hnew]
          exact Or.inr hv
    · rw [if_neg hv] at ht
      exact Or.inl ht

theorem rowStep_allT_cases (hs : List String) (cts : List (String × CType))
    (nIdx : Option Nat) (headerRow : P5.Row) (st : P5.St) (r : P5.Row) :
    (P5.rowStep hs cts nIdx headerRow st r).allT = (P5.flush hs st).allT ∨
    (P5.rowStep hs cts nIdx headerRow st r).allT = st.allT := by
  dsimp only [P5.rowStep]
  split
  · exact Or.inl rfl
  · split
    · split
      · exact Or.inr rfl
      · exact Or.inr rfl
    · exact Or.inr rfl

theorem rowLoop_allT (hs : List String) (cts : List (String × CType))
    (nIdx : Option Nat) (headerRow : P5.Row) :
    ∀ (rows : List P5.Row) (st : P5.St),
      ∀ t ∈ (P5.rowLoop hs cts nIdx headerRow st rows).allT,
        t ∈ st.allT ∨ P5.isValidTransaction t hs = true := by
  intro rows
  induction rows with
  | nil => intro st t ht; exact Or.inl ht
  | cons r rest ih =>
    intro st t ht
    rw [P5.rowLoop] at ht
    by_cases h1 : r.items.isEmpty
    · rw [if_pos h1] at ht
      exact ih st t ht
    · simp only [h1, Bool.false_eq_true, if_false] at ht
      by_cases h2 : P5.isFooter r
      · rw [if_pos h2] at ht
        exact flush_allT hs st t ht
      · simp only [h2, Bool.false_eq_true, if_false] at ht
        rcases ih _ t ht with hin | hv
        · rcases rowStep_allT_cases hs cts nIdx headerRow st r with he | he
          · rw [he] at hin
            exact flush_allT hs st t hin
          · rw [he] at hin
            exact Or.inl hin
        · exact Or.inr hv

theorem pageRun_allT (hs : List String) (cts : List (String × CType))
    (nIdx : Option Nat) (headerRow : P5.Row) (st : P5.St) (rows : List P5.Row) :
    ∀ t ∈ (P5.pageRun hs cts nIdx headerRow st rows).allT,
      t ∈ st.allT ∨ P5.isValidTransaction t hs = true := by
  intro t ht
  unfold P5.pageRun at ht
  rcases flush_allT hs _ t ht with hin | hv
  · exact rowLoop_allT hs cts nIdx headerRow rows st t hin
  · exact Or.inr hv

theorem pageStep_inv (st : P5.GSt) (idx : Nat) (items : List P5.TextItem)
    (h1 : st.ghdrs = [] → st.allT = [])
    (h2 : ∀ t ∈ st.allT, P5.isValidTransaction t st.ghdrs = true) :
    ((P5.pageStep st idx items).ghdrs = [] → (P5.pageStep st idx items).allT = []) ∧
    (∀ t ∈ (P5.pageStep st idx items).allT,
      P5.isValidTransaction t (P5.pageStep st idx items).ghdrs = true) := by
  unfold P5.pageStep
  by_cases hemp : items.isEmpty
  · rw [if_pos hemp]
    exact ⟨h1, h2⟩
  · rw [if_neg hemp]
    dsimp only
    by_cases hg : st.ghdrs.isEmpty
    · have hgl : st.ghdrs = [] := List.isEmpty_iff.mp hg
      have hallT : st.allT = [] := h1 hgl
      rw [if_pos hg]
      cases hfh : P5.findHeaders (P5.groupIntoRows items) with
      | none => exact ⟨h1, h2⟩
      | some hi =>
        dsimp only
        refine ⟨fun hc => absurd hc (findHeaders_some_ne_nil _ hi.1 hi.2 hfh), ?_⟩
        intro t ht
        rcases pageRun_allT hi.2 (hi.2.map (fun h => (h, P5.detectColumnType h)))
          (P5.narrationIdx hi.2) _ ⟨none, st.seen, st.allT, []⟩ _ t ht with hin | hv
        · rw [hallT] at hin
          exact absurd hin (List.not_mem_nil t)
        · exact hv
    · rw [if_neg hg]
      dsimp only
      have hgne : st.ghdrs ≠ [] := by
        intro hc
        rw [hc] at hg
        exact hg rfl
      cases hfh : P5.findHeaders (P5.groupIntoRows items) with
      | none => exact ⟨h1, h2⟩
      | some hi =>
        dsimp only
        refine ⟨fun hc => absurd hc hgne, ?_⟩
        intro t ht
        rcases pageRun_allT st.ghdrs st.gcts (P5.narrationIdx st.ghdrs) _
          ⟨none, st.seen, st.allT, []⟩ _ t ht with hin | hv
        · exact h2 t hin
        · exact hv

theorem pagesLoop_inv :
    ∀ (l : List (List P5.TextItem)) (st : P5.GSt) (idx : Nat),
      (st.ghdrs = [] → st.allT = []) →
      (∀ t ∈ st.allT, P5.isValidTransaction t st.ghdrs = true) →
      ((P5.pagesLoop st idx l).ghdrs = [] → (P5.pagesLoop st idx l).allT = []) ∧
      (∀ t ∈ (P5.pagesLoop st idx l).allT,
        P5.isValidTransaction t (P5.pagesLoop st idx l).ghdrs = true) := by
  intro l
  induction l with
  | nil => intro st idx h1 h2; exact ⟨h1, h2⟩
  | cons items rest ih =>
    intro st idx h1 h2
    rw [P5.pagesLoop]
    have hstep := pageStep_inv st idx items h1 h2
    exact ih _ (idx + 1) hstep.1 hstep.2

/-- C6 (amended): every transaction in the part_005 output passes
`isValidTransaction` against the reported headers — it carries a
date-grammar value in a DATE-typed column or an amount-grammar value in an
AMOUNT-typed column.  (The original claim — that a non-empty DATE-typed
column always matches the date grammar — fails: a row can be accepted on the
strength of its amount alone while holding junk in the date column, as the
counterexample shows.) -/
theorem C6_validity (data : List (List P5.TextItem)) (t : Trans)
    (ht : t ∈ (P5.parseAllPages data).transactions) :
    P5.isValidTransaction t (P5.parseAllPages data).headers = true := by
  have h := pagesLoop_inv data ⟨[], [], [], [], []⟩ 0 (fun _ => rfl) (by simp)
  exact h.2 t ht

/-- C6 counterexample: the document's only transaction ends with `xyz` in the
DATE-typed `Date` column — non-empty yet matching no accepted date grammar —
because the valid `Balance` amount alone lets it through. -/
theorem C6_cex :
    P5.parseAllPages [c6Page] =
      ⟨[c6T], ["Date", "Balance"], [⟨1, [c6T]⟩],
        [("Date", CType.date), ("Balance", CType.amount)]⟩ ∧
    getKey c6T "Date" = "xyz" ∧
    P5.isDateValue "xyz" = false := by
  refine ⟨?_, ?_, ?_⟩ <;> with_unfolding_all decide

/-- C6 witness: the amended guarantee at the concrete document. -/
theorem C6_witness :
    P5.isValidTransaction c6T (P5.parseAllPages [c6Page]).headers = true :=
  C6_validity [c6Page] c6T (by with_unfolding_all decide)

/-! ## Claim C5 — cross-page deduplication -/

theorem dedupFilter_seen_mono (ts : List Trans) :
    ∀ (seen : List String) (k : String), k ∈ seen → k ∈ (P7.dedupFilter seen ts).2 := by
  induction ts with
  | nil => intro seen k hk; exact hk
  | cons t0 rest ih =>
    intro seen k hk
    rw [P7.dedupFilter]
    split
    · exact ih seen k hk
    · exact ih _ k (List.mem_cons_of_mem _ hk)

theorem dedupFilter_key_in_seen (ts : List Trans) :
    ∀ (seen : List String), ∀ t ∈ ts,
      P7.createTransactionKey t ∈ (P7.dedupFilter seen ts).2 := by
  induction ts with
  | nil => intro seen t ht; exact absurd ht (List.not_mem_nil t)
  | cons t0 rest ih =>
    intro seen t ht
    rw [P7.dedupFilter]
    rcases List.mem_cons.mp ht with rfl | ht'
    · split
      · next hin => exact dedupFilter_seen_mono rest seen _ hin
      · exact dedupFilter_seen_mono rest _ _ (List.mem_cons_self _ _)
    · split
      · exact ih seen t ht'
      · exact ih _ t ht'

theorem dedupFilter_pushed_in_seen (ts : List Trans) :
    ∀ (seen : List String), ∀ k ∈ (P7.dedupFilter seen ts).1.map P7.createTransactionKey,
      k ∈ (P7.dedupFilter seen ts).2 := by
  induction ts with
  | nil => intro seen k hk; exact absurd hk (by simp [P7.dedupFilter])
  | cons t0 rest ih =>
    intro seen k hk
    simp only [P7.dedupFilter] at hk ⊢
    by_cases hin : P7.createTransactionKey t0 ∈ seen
    · rw [if_pos hin] at hk ⊢
      exact ih seen k hk
    · rw [if_neg hin] at hk ⊢
      dsimp only at hk ⊢
      simp only [List.map_cons, List.mem_cons] at hk
      rcases hk with rfl | hk'
      · exact dedupFilter_seen_mono rest _ _ (List.mem_cons_self _ _)
      · exact ih _ k hk'

theorem dedupFilter_seen_sub (ts : List Trans) :
    ∀ (seen : List String) (k : String), k ∈ (P7.dedupFilter seen ts).2 →
      k ∈ seen ∨ k ∈ (P7.dedupFilter seen ts).1.map P7.createTransactionKey := by
  induction ts with
  | nil => intro seen k hk; exact Or.inl hk
  | cons t0 rest ih =>
    intro seen k hk
    simp only [P7.dedupFilter] at hk ⊢
    by_cases hin : P7.createTransactionKey t0 ∈ seen
    · rw [if_pos hin] at hk ⊢
      exact ih seen k hk
    · rw [if_neg hin] at hk ⊢
      dsimp only at hk ⊢
      rcases ih _ k hk with hseen' | hkeys
      · rcases List.mem_cons.mp hseen' with rfl | hs
        · exact Or.inr (by simp)
        · exact Or.inl hs
      · exact Or.inr (by simp [hkeys])

theorem dedupFilter_keys_nodup (ts : List Trans) :
    ∀ (seen : List String),
      ((P7.dedupFilter seen ts).1.map P7.createTransactionKey).Nodup ∧
      (∀ k ∈ (P7.dedupFilter seen ts).1.map P7.createTransactionKey, k ∉ seen) := by
  induction ts with
  | nil =>
    intro seen
    constructor
    · simp [P7.dedupFilter]
    · intro k hk; exact absurd hk (by simp [P7.dedupFilter])
  | cons t0 rest ih =>
    intro seen
    rw [P7.dedupFilter]
    split
    · exact ih seen
    · next hnin =>
      rcases ih (P7.createTransactionKey t0 :: seen) with ⟨hnd, hout⟩
      constructor
      · simp only [List.map_cons]
        refine List.nodup_cons.mpr ⟨?_, hnd⟩
        intro hc
        exact hout _ hc (List.mem_cons_self _ _)
      · intro k hk
        simp only [List.map_cons, List.mem_cons] at hk
        rcases hk with rfl | hk'
        · exact hnin
        · intro hs
          exact hout k hk' (List.mem_cons_of_mem _ hs)

theorem pagesKeys_append (a b : List P7.PageData) :
    P7.pagesKeys (a ++ b) = P7.pagesKeys a ++ P7.pagesKeys b := by
  simp [P7.pagesKeys]

theorem processLoop_inv :
    ∀ (l : List (List P7.TextItem)) (st : P7.PState) (seen : List String)
      (accP : List P7.PageData) (idx : Nat),
      (∀ k, k ∈ seen ↔ k ∈ P7.pagesKeys accP) →
      (P7.pagesKeys accP).Nodup →
      (P7.pagesKeys (P7.processLoop st seen accP idx l).2).Nodup ∧
      (∀ k, k ∈ P7.pagesKeys accP →
        k ∈ P7.pagesKeys (P7.processLoop st seen accP idx l).2) ∧
      (∀ (j : Nat) (items : List P7.TextItem), l[j]? = some items → items ≠ [] →
        ∀ t ∈ P7.extractTransactionsFromPage (P7.groupItemsIntoRows items)
            (P7.stateUsedForAux st idx l j).cols (P7.stateUsedForAux st idx l j).headers,
          P7.createTransactionKey t ∈
            P7.pagesKeys (P7.processLoop st seen accP idx l).2) := by
  intro l
  induction l with
  | nil =>
    intro st seen accP idx hseen hnd
    exact ⟨hnd, fun k hk => hk, fun j items hj => by simp at hj⟩
  | cons items rest ih =>
    intro st seen accP idx hseen hnd
    rw [P7.processLoop]
    by_cases hemp : items.isEmpty
    · rw [if_pos hemp]
      have hitems : items = [] := List.isEmpty_iff.mp hemp
      rcases ih st seen accP (idx + 1) hseen hnd with ⟨r1, r2, r3⟩
      refine ⟨r1, r2, ?_⟩
      intro j its hj hne
      cases j with
      | zero =>
        simp only [List.getElem?_cons_zero, Option.some.injEq] at hj
        exact absurd (hj ▸ hitems) hne
      | succ j' =>
        simp only [List.getElem?_cons_succ] at hj
        intro t ht
        have hstep : P7.stepP st idx items = st := by
          rw [P7.stepP, if_pos hemp]
        have : P7.stateUsedForAux st idx (items :: rest) (j' + 1) =
            P7.stateUsedForAux st (idx + 1) rest j' := by
          rw [P7.stateUsedForAux, hstep]
        rw [this] at ht
        exact r3 j' its hj hne t ht
    · rw [if_neg hemp]
      dsimp only
      set rows := P7.groupItemsIntoRows items with hrows
      set st' := P7.updStruct st idx rows with hst'
      set pageTs := P7.extractTransactionsFromPage rows st'.cols st'.headers with hpts
      set uniq := P7.dedupFilter seen pageTs with huniq
      set accP' := accP ++ if uniq.1.isEmpty then [] else [⟨idx + 1, uniq.1⟩] with haccP'
      have hkeysacc : P7.pagesKeys accP' =
          P7.pagesKeys accP ++ uniq.1.map P7.createTransactionKey := by
        rw [haccP', pagesKeys_append]
        by_cases he : uniq.1.isEmpty
        · have : uniq.1 = [] := List.isEmpty_iff.mp he
          simp [he, this, P7.pagesKeys]
        · have hef : uniq.1.isEmpty = false := by
            cases hb : uniq.1.isEmpty
            · rfl
            · exact absurd hb he
          simp [hef, P7.pagesKeys]
      have hseen' : ∀ k, k ∈ uniq.2 ↔ k ∈ P7.pagesKeys accP' := by
        intro k
        rw [hkeysacc]
        constructor
        · intro hk
          rcases dedupFilter_seen_sub pageTs seen k hk with hs | hkeys
          · exact List.mem_append.mpr (Or.inl ((hseen k).mp hs))
          · exact List.mem_append.mpr (Or.inr hkeys)
        · intro hk
          rcases List.mem_append.mp hk with hs | hkeys
          · exact dedupFilter_seen_mono pageTs seen k ((hseen k).mpr hs)
          · exact dedupFilter_pushed_in_seen pageTs seen k hkeys
      have hnd' : (P7.pagesKeys accP').Nodup := by
        rw [hkeysacc]
        rcases dedupFilter_keys_nodup pageTs seen with ⟨hn1, hn2⟩
        refine List.Nodup.append hnd hn1 ?_
        rw [List.disjoint_left]
        intro k hk hk'
        exact hn2 k hk' ((hseen k).mpr hk)
      rcases ih st' uniq.2 accP' (idx + 1) hseen' hnd' with ⟨r1, r2, r3⟩
      have hstep : P7.stepP st idx items = st' := by
        rw [P7.stepP, if_neg hemp]
      refine ⟨r1, ?_, ?_⟩
      · intro k hk
        exact r2 k (by rw [hkeysacc]; exact List.mem_append.mpr (Or.inl hk))
      · intro j its hj hne
        cases j with
        | zero =>
          simp only [List.getElem?_cons_zero, Option.some.injEq] at hj
          subst hj
          intro t ht
          have hstate : P7.stateUsedForAux st idx (items :: rest) 0 = st' := hstep
          rw [hstate] at ht
          have hkey := dedupFilter_key_in_seen pageTs seen t ht
          exact r2 _ ((hseen' _).mp hkey)
        | succ j' =>
          simp only [List.getElem?_cons_succ] at hj
          intro t ht
          have : P7.stateUsedForAux st idx (items :: rest) (j' + 1) =
              P7.stateUsedForAux st' (idx + 1) rest j' := by
            rw [P7.stateUsedForAux, hstep]
          rw [this] at ht
          exact r3 j' its hj hne t ht

/-- C5 (confirmed): the keys of the final transaction list of
`processAllPages` are pairwise distinct (at most one instance per canonical
key), and every transaction assembled on any non-empty page — in particular
one re-printed across a page break — has its key represented in the final
list, so two assembled transactions with identical keys from different pages
leave exactly one instance. -/
theorem C5_dedup (data : List (List P7.TextItem)) :
    ((P7.processAllPages data).transactions.map P7.createTransactionKey).Nodup ∧
    (∀ (i : Nat) (items : List P7.TextItem), data[i]? = some items → items ≠ [] →
      ∀ t ∈ P7.extractTransactionsFromPage (P7.groupItemsIntoRows items)
          (P7.stateUsedFor data i).cols (P7.stateUsedFor data i).headers,
        P7.createTransactionKey t ∈
          (P7.processAllPages data).transactions.map P7.createTransactionKey) := by
  have h := processLoop_inv data ⟨[], [], []⟩ [] [] 0
    (by simp [P7.pagesKeys]) (by simp [P7.pagesKeys])
  have heq : (P7.processAllPages data).transactions.map P7.createTransactionKey =
      P7.pagesKeys (P7.processLoop ⟨[], [], []⟩ [] [] 0 data).2 := by
    simp [P7.processAllPages, P7.pagesKeys]
  rw [heq]
  exact ⟨h.1, h.2.2⟩

/-- C5 witness: the same page twice (the reprint scenario): the repeated
transaction is assembled on page 2 as well, yet its key appears exactly once
in the final list. -/
theorem C5_witness :
    ((P7.processAllPages c5Data).transactions.map P7.createTransactionKey).Nodup ∧
    P7.createTransactionKey c5T ∈
      (P7.processAllPages c5Data).transactions.map P7.createTransactionKey :=
  ⟨(C5_dedup c5Data).1,
    (C5_dedup c5Data).2 1 c5Page (by with_unfolding_all decide)
      (by with_unfolding_all decide) c5T (by with_unfolding_all decide)⟩

/-! ## Claim C7 — permutation invariance of row clustering -/

theorem sortDescQ_eq_of_perm {l₁ l₂ : List ℚ} (h : l₁.Perm l₂) :
    sortByKey (fun q => -q) l₁ = sortByKey (fun q => -q) l₂ := by
  have hp : (sortByKey (fun q => -q) l₁).Perm (sortByKey (fun q => -q) l₂) :=
    (sortByKey_perm _ l₁).trans (h.trans (sortByKey_perm _ l₂).symm)
  have hs₁ : (sortByKey (fun q => -q) l₁).Sorted (· ≥ ·) :=
    (sortByKey_sorted (fun q => -q) l₁).imp (fun hab => neg_le_neg_iff.mp hab)
  have hs₂ : (sortByKey (fun q => -q) l₂).Sorted (· ≥ ·) :=
    (sortByKey_sorted (fun q => -q) l₂).imp (fun hab => neg_le_neg_iff.mp hab)
  exact List.eq_of_perm_of_sorted hp hs₁ hs₂

theorem toleranceOf_perm {items₁ items₂ : List V2.TextItem} (h : items₁.Perm items₂) :
    V2.toleranceOf items₁ = V2.toleranceOf items₂ := by
  have hys : (sortByKey (fun it : V2.TextItem => -it.y) items₁).map (fun it => it.y) =
      (sortByKey (fun it : V2.TextItem => -it.y) items₂).map (fun it => it.y) := by
    rw [sortByKey_map (fun it : V2.TextItem => -it.y) (fun q => -q)
          (fun it => it.y) (fun _ => rfl),
        sortByKey_map (fun it : V2.TextItem => -it.y) (fun q => -q)
          (fun it => it.y) (fun _ => rfl)]
    exact sortDescQ_eq_of_perm (h.map _)
  dsimp only [V2.toleranceOf]
  rw [hys]

/-- C7 (corrected): row clustering and the downstream multi-line grouping are
invariant under permutation of the fragment list PROVIDED no two fragments of
one row share an x-position; with tied coordinates the stable sorts preserve
input order and the conclusion fails (see the counterexample). -/
theorem C7_perm_invariance (items₁ items₂ : List V2.TextItem)
    (hperm : items₁.Perm items₂)
    (hx : ∀ kk : ℚ,
      ((items₁.filter (fun it =>
          decide (V2.rowKeyAt (V2.toleranceOf items₁) it.y = kk))).map
        (fun it => it.x)).Nodup) :
    V2.groupItemsIntoRows items₁ = V2.groupItemsIntoRows items₂ ∧
    ∀ (cr : List V2.ColumnRange) (hdrs : List String),
      V2.groupMultiLineTransactions (V2.groupItemsIntoRows items₁) cr hdrs =
      V2.groupMultiLineTransactions (V2.groupItemsIntoRows items₂) cr hdrs := by
  have htol := toleranceOf_perm hperm
  have hrows : V2.groupItemsIntoRows items₁ = V2.groupItemsIntoRows items₂ := by
    by_cases hemp : items₁.isEmpty
    · have h1 : items₁ = [] := List.isEmpty_iff.mp hemp
      have h2 : items₂ = [] := (h1 ▸ hperm).symm.eq_nil
      rw [h1, h2]
    · have hemp₂ : ¬ items₂.isEmpty = true := by
        intro hc
        exact hemp (by rw [List.isEmpty_iff] at hc ⊢; exact (hc ▸ hperm).eq_nil)
      dsimp only [V2.groupItemsIntoRows]
      rw [if_neg hemp, if_neg hemp₂]
      simp only [htol] at hx ⊢
      have hk₁ := nodup_firstDedup
        (items₁.map (fun it => V2.rowKeyAt (V2.toleranceOf items₂) it.y))
      have hk₂ := nodup_firstDedup
        (items₂.map (fun it => V2.rowKeyAt (V2.toleranceOf items₂) it.y))
      have hkperm :
          (firstDedup (items₁.map (fun it => V2.rowKeyAt (V2.toleranceOf items₂) it.y))).Perm
          (firstDedup (items₂.map (fun it => V2.rowKeyAt (V2.toleranceOf items₂) it.y))) := by
        refine (List.perm_ext_iff_of_nodup hk₁ hk₂).mpr ?_
        intro q
        rw [mem_firstDedup, mem_firstDedup]
        exact (hperm.map _).mem_iff
      rw [sortDescQ_eq_of_perm hkperm]
      refine List.map_congr_left ?_
      intro kk _
      refine eq_of_perm_sorted_nodupKeys (fun it : V2.TextItem => it.x)
        ((sortByKey_perm _ _).trans (((hperm.filter _)).trans (sortByKey_perm _ _).symm))
        (sortByKey_sorted _ _) (sortByKey_sorted _ _) ?_
      exact (((sortByKey_perm (fun it : V2.TextItem => it.x) _).map
        (fun it : V2.TextItem => it.x)).nodup_iff).mpr (hx kk)
  exact ⟨hrows, fun cr hdrs => by rw [hrows]⟩

/-- C7 counterexample: two fragments sharing both coordinates (x tied within
the row): swapping them permutes the input but changes the produced row, so
unconditional permutation invariance fails. -/
theorem C7_cex :
    [c7A, c7B].Perm [c7B, c7A] ∧
    V2.groupItemsIntoRows [c7A, c7B] ≠ V2.groupItemsIntoRows [c7B, c7A] :=
  ⟨List.Perm.swap c7B c7A [], by with_unfolding_all decide⟩

/-- C7 witness: a two-fragment page with distinct x-positions, its reversal. -/
theorem C7_witness :
    V2.groupItemsIntoRows [⟨"A", 50, 10, 0⟩, ⟨"B", 50, 30, 0⟩] =
      V2.groupItemsIntoRows [⟨"B", 50, 30, 0⟩, ⟨"A", 50, 10, 0⟩] ∧
    ∀ (cr : List V2.ColumnRange) (hdrs : List String),
      V2.groupMultiLineTransactions
        (V2.groupItemsIntoRows [⟨"A", 50, 10, 0⟩, ⟨"B", 50, 30, 0⟩]) cr hdrs =
      V2.groupMultiLineTransactions
        (V2.groupItemsIntoRows [⟨"B", 50, 30, 0⟩, ⟨"A", 50, 10, 0⟩]) cr hdrs := by
  refine C7_perm_invariance _ _ (List.Perm.swap _ _ []) ?_
  intro kk
  exact List.Sublist.nodup ((List.filter_sublist _).map (fun it : V2.TextItem => it.x))
    (by with_unfolding_all decide)

/-! ## Claim C9 — transaction keys versus reported headers -/

/-- C9 (code bug in the first index.ts variant): the transactions are built
with the RAW header labels as keys, but the reported `headers` field is
passed through `normalizeHeaders`, which renames e.g. "Debit" to
"Withdrawal"; on a page headed Date/Debit/Credit the emitted transaction
keeps keys Date/Debit/Credit while the result reports
Date/Withdrawal/Deposit, so the key set of the appended transaction does not
equal the reported header labels ("Debit" is a key of the transaction but not
a reported label). -/
theorem C9_keys :
    V1.parseAllPages [c9Page] = ⟨[c9T], ["Date", "Withdrawal", "Deposit"]⟩ ∧
    keysOf c9T = ["Date", "Debit", "Credit"] ∧
    "Debit" ∉ (V1.parseAllPages [c9Page]).headers := by
  with_unfolding_all decide

/-- C10 witness at a one-page document. -/
theorem C10_witness :
    (V2.parseAllPages [c4Page]).transactions =
      (((V2.parseAllPages [c4Page]).pages).map (fun p => p.transactions)).flatten ∧
    (⟨1, [c4TA, c4TB]⟩ : V2.PageData).transactions ≠ [] ∧
    List.Chain' (fun a b => a < b)
      (((V2.parseAllPages [c4Page]).pages).map (fun p => p.pageNumber)) ∧
    1 ≤ (⟨1, [c4TA, c4TB]⟩ : V2.PageData).pageNumber ∧
      (⟨1, [c4TA, c4TB]⟩ : V2.PageData).pageNumber ≤ [c4Page].length :=
  have h := C10_pages [c4Page]
  ⟨h.1, h.2.1 _ (by with_unfolding_all decide), h.2.2.1,
    h.2.2.2 _ (by with_unfolding_all decide)⟩

end BankParse
